import Mathlib

/-!
Verification development for the T-SQL static-analysis engine
(`app/services/safe_sql.py`, `app/services/tsql_analyzer.py`,
`app/services/tsql_reusability.py`, `app/services/tsql_call_graph.py`,
`app/services/tsql_mybatis_difficulty.py`, `app/services/rag_lexical.py`).

The Python sources are shallowly embedded: strings are lists of Unicode
characters, the handful of `re` patterns used by the analyzers are embedded as
explicit scanners with Python `finditer` semantics (leftmost match, alternatives
tried in pattern order, greedy optional groups with backtracking, matching
resumes after the end of each match), and calls into external libraries
(`hashlib.sha256`, `sqlglot.parse`, `math.log`, `math.sqrt`) are modelled as
explicit function parameters or explicit inputs, so every theorem is quantified
over their behaviour.  Python `\w` is embedded for the ASCII fragment
(letters, digits, underscore), which is exact for all inputs considered here;
Python `\s` is embedded as the six ASCII whitespace characters.
-/

namespace Spec2Proof

/-! ## Character classes (embedding of the `re` classes `\w` and `\s`) -/

def isWordChar (c : Char) : Bool := c.isAlphanum || c == '_'

def isSpaceChar (c : Char) : Bool :=
  c == ' ' || c == '\t' || c == '\n' || c == '\r' || c == '\x0b' || c == '\x0c'

/-! ### Plain string helpers

Python's `str.lower`/`upper`/`strip`/`split`/`startswith` and string
comparison, embedded over the character list of the string (Python compares
strings code point by code point; `lower`/`upper` on the identifiers involved
is plain ASCII casing). -/

def toLowerS (s : String) : String := (s.data.map Char.toLower).asString

def toUpperS (s : String) : String := (s.data.map Char.toUpper).asString

/-- Python `str.strip()`. -/
def pyStrip (s : String) : String :=
  (((s.data.dropWhile isSpaceChar).reverse.dropWhile isSpaceChar).reverse).asString

/-- Split on a separator character (Python `str.split(sep)` /
`re.split` for a single-character pattern). -/
def splitOnChar (sep : Char) (l : List Char) : List (List Char) :=
  l.foldr
    (fun c acc =>
      match acc with
      | [] => if c = sep then [[], []] else [[c]]
      | h :: t => if c = sep then [] :: h :: t else (c :: h) :: t)
    [[]]

/-- `".".join(parts)`. -/
def intercalateDot : List String → String
  | [] => ""
  | [p] => p
  | p :: rest => p ++ "." ++ intercalateDot rest

/-- Code-point lexicographic comparison of character lists (Python `<=` on
strings). -/
def lexLe : List Char → List Char → Bool
  | [], _ => true
  | _ :: _, [] => false
  | a :: as, b :: bs => if a = b then lexLe as bs else decide (a < b)

def strLe (a b : String) : Prop := lexLe a.data b.data = true

instance : DecidableRel strLe := fun a b => by unfold strLe; infer_instance

/-- Whether `pat` occurs as a contiguous substring (Python `pat in s`). -/
def containsSub (pat : List Char) : List Char → Bool
  | [] => pat.isEmpty
  | c :: cs => pat.isPrefixOf (c :: cs) || containsSub pat cs

/-! ## UTF-8 (used by `summarize_sql`, which hashes `sql.encode("utf-8")`) -/

/-- UTF-8 encoding of one Unicode scalar value, as a list of byte values. -/
def charUtf8Bytes (c : Char) : List Nat :=
  let n := c.toNat
  if n < 0x80 then [n]
  else if n < 0x800 then [0xC0 + n / 0x40, 0x80 + n % 0x40]
  else if n < 0x10000 then
    [0xE0 + n / 0x1000, 0x80 + (n / 0x40) % 0x40, 0x80 + n % 0x40]
  else
    [0xF0 + n / 0x40000, 0x80 + (n / 0x1000) % 0x40, 0x80 + (n / 0x40) % 0x40,
     0x80 + n % 0x40]

/-- The UTF-8 byte sequence of a string (Python `sql.encode("utf-8")`). -/
def utf8Bytes (s : String) : List Nat := (s.data.map charUtf8Bytes).flatten

/-- The UTF-8 byte length of a string. -/
def utf8Len (s : String) : Nat := (utf8Bytes s).length

/-! ## `app/services/safe_sql.py` -/

/-- Result shape of `summarize_sql`. -/
structure SqlSummary where
  len : Nat
  sha256_8 : String
deriving Repr, DecidableEq

/-- `safe_sql.summarize_sql`.  The external `hashlib.sha256(...).hexdigest()`
is modelled as the function parameter `sha256hex` from the UTF-8 bytes of the
input to the hex digest; the code takes its first 8 characters.  `len(sql)` in
Python is the number of Unicode code points of `sql`. -/
def summarize_sql (sha256hex : List Nat → String) (sql : String) : SqlSummary :=
  { len := sql.length
    sha256_8 := ((sha256hex (utf8Bytes sql)).toList.take 8).asString }

/-- Embedding of `BLOCK_COMMENT_PATTERN.sub(" ", sql)` with pattern
`/\*.*?\*/` (DOTALL): find the lazy closing `*/`, returning the suffix after
it. -/
def findBlockEnd : List Char → Option (List Char)
  | [] => none
  | [_] => none
  | c :: d :: rest =>
    if c = '*' ∧ d = '/' then some rest else findBlockEnd (d :: rest)

/-- A `/*...*/` match starting at the current position: requires the opener
and a (lazy) closer; returns the suffix after `*/`. -/
def stepBlock : List Char → Option (List Char)
  | [] => none
  | [_] => none
  | c :: d :: rest => if c = '/' ∧ d = '*' then findBlockEnd rest else none

/-- Fuel-indexed scanner replacing each non-overlapping `/*...*/` match by one
space.  An unterminated `/*` has no match (the pattern requires `*/`) and is
copied unchanged. -/
def stripBlockGo : Nat → List Char → List Char
  | 0, l => l
  | _ + 1, [] => []
  | fuel + 1, c :: rest =>
    match stepBlock (c :: rest) with
    | some rest' => ' ' :: stripBlockGo fuel rest'
    | none => c :: stripBlockGo fuel rest

def stripBlock (l : List Char) : List Char := stripBlockGo l.length l

/-- A `--...$` match starting at the current position: returns the suffix from
the next newline (or the empty suffix). -/
def stepLine : List Char → Option (List Char)
  | [] => none
  | [_] => none
  | c :: d :: rest =>
    if c = '-' ∧ d = '-' then some (rest.dropWhile (fun c => c ≠ '\n')) else none

/-- Embedding of `LINE_COMMENT_PATTERN.sub(" ", sql)` with pattern `--.*?$`
(MULTILINE): each `--` up to (excluding) the next newline or end of input is
replaced by one space. -/
def stripLineGo : Nat → List Char → List Char
  | 0, l => l
  | _ + 1, [] => []
  | fuel + 1, c :: rest =>
    match stepLine (c :: rest) with
    | some rest' => ' ' :: stripLineGo fuel rest'
    | none => c :: stripLineGo fuel rest

def stripLine (l : List Char) : List Char := stripLineGo l.length l

/-- Body of a single-quoted SQL string after the opening quote, pattern
`(?:''|[^'])*'`: greedily consumes doubled quotes and non-quote characters,
backtracking to close earlier when the greedy path cannot reach a closing
quote.  Returns the suffix after the closing quote, or `none` when the literal
is unterminated (no match). -/
def stringBody : List Char → Option (List Char)
  | [] => none
  | [c] => if c = '\'' then some [] else none
  | c :: d :: rest =>
    if c = '\'' then
      if d = '\'' then
        match stringBody rest with
        | some r => some r
        | none => some (d :: rest)
      else some (d :: rest)
    else stringBody (d :: rest)

/-- A string-literal match starting at the current position (the `N'...'`
alternative is tried first, as in the pattern); returns the suffix after the
closing quote. -/
def stepString : List Char → Option (List Char)
  | [] => none
  | [c] => if c = '\'' then stringBody [] else none
  | c :: d :: rest =>
    if c = 'N' ∧ d = '\'' then stringBody rest
    else if c = '\'' then stringBody (d :: rest)
    else none

/-- Embedding of `STRING_LITERAL_PATTERN.sub("''", sql)` with pattern
`N'(?:''|[^'])*'|'(?:''|[^'])*'` (DOTALL): each matched literal is replaced by
`''`. -/
def stripStringsGo : Nat → List Char → List Char
  | 0, l => l
  | _ + 1, [] => []
  | fuel + 1, c :: rest =>
    match stepString (c :: rest) with
    | some r => '\'' :: '\'' :: stripStringsGo fuel r
    | none => c :: stripStringsGo fuel rest

def stripStrings (l : List Char) : List Char := stripStringsGo l.length l

/-- `safe_sql.strip_comments_and_strings`: the three substitutions applied in
source order (block comments, then line comments, then string literals). -/
def strip_comments_and_strings (sql : String) : String :=
  (stripStrings (stripLine (stripBlock sql.data))).asString

/-- The characters that blanking may insert (spaces for comments, quotes for
string literals); every other output character originates from the input. -/
def keepChar (c : Char) : Bool := !(c == ' ' || c == '\'')

/-- Whether the two-character sequence `a b` occurs in the list (the opener
syntax of a block or line comment). -/
def hasPair (a b : Char) : List Char → Bool
  | x :: y :: rest => (x == a && y == b) || hasPair a b (y :: rest)
  | _ => false

/-! ## A small matching kit for the analyzer regexes

A matcher takes the character preceding the current position (for `\b`) and
the remaining input, and returns the suffix after the match, or `none`.
`scanCount`/`scanCaptures` embed `Pattern.findall` / `finditer`: positions are
tried left to right and scanning resumes after the end of each match. -/

/-- `\b` before the first (word) character of a pattern: holds at the start of
the input or after a non-word character. -/
def prevBoundary : Option Char → Bool
  | none => true
  | some c => !isWordChar c

/-- `\b` after the last (word) character of a pattern: holds at the end of the
input or before a non-word character. -/
def endBoundary : List Char → Bool
  | [] => true
  | c :: _ => !isWordChar c

/-- Consume a literal keyword case-insensitively (`re.IGNORECASE`); `w` is
given in lowercase. -/
def dropKeyword : List Char → List Char → Option (List Char)
  | [], l => some l
  | _ :: _, [] => none
  | a :: ws, c :: cs => if c.toLower == a then dropKeyword ws cs else none

/-- Consume `\s*` (maximal munch). -/
def dropWsMany : List Char → List Char
  | c :: cs => if isSpaceChar c then dropWsMany cs else c :: cs
  | [] => []

/-- Consume `\s+` (maximal munch; for the keyword-separated patterns below
this is equivalent to the backtracking regex). -/
def dropWs1 : List Char → Option (List Char)
  | c :: cs => if isSpaceChar c then some (dropWsMany cs) else none
  | [] => none

/-- The character immediately before the suffix `rest` of `l`, used as the new
"previous character" after a match. -/
def lastConsumed (l rest : List Char) : Option Char :=
  (l.take (l.length - rest.length)).getLast?

/-- Count the non-overlapping matches of `m` (Python `len(p.findall(sql))`). -/
def scanCount (m : Option Char → List Char → Option (List Char)) :
    Nat → Option Char → List Char → Nat
  | 0, _, _ => 0
  | _ + 1, _, [] => 0
  | fuel + 1, prev, c :: cs =>
    match m prev (c :: cs) with
    | some rest => 1 + scanCount m fuel (lastConsumed (c :: cs) rest) rest
    | none => scanCount m fuel (some c) cs

def countMatches (m : Option Char → List Char → Option (List Char)) (s : String) : Nat :=
  scanCount m s.data.length none s.data

def hasMatch (m : Option Char → List Char → Option (List Char)) (s : String) : Bool :=
  countMatches m s > 0

/-- Collect the captures of the non-overlapping matches of a capturing matcher
(in match order), embedding `p.finditer(sql)`. -/
def scanCaptures {α : Type} (m : Option Char → List Char → Option (List Char × α)) :
    Nat → Option Char → List Char → List α
  | 0, _, _ => []
  | _ + 1, _, [] => []
  | fuel + 1, prev, c :: cs =>
    match m prev (c :: cs) with
    | some (rest, a) => a :: scanCaptures m fuel (lastConsumed (c :: cs) rest) rest
    | none => scanCaptures m fuel (some c) cs

def allCaptures {α : Type} (m : Option Char → List Char → Option (List Char × α))
    (s : String) : List α :=
  scanCaptures m s.data.length none s.data

/-! ## `tsql_analyzer.analyze_transactions` patterns -/

/-- `BEGIN_TRAN_PATTERN = \bBEGIN\s+TRAN(?:SACTION)?\b`. -/
def mBeginTran (prev : Option Char) (l : List Char) : Option (List Char) := do
  guard (prevBoundary prev)
  let r ← dropKeyword "begin".data l
  let r ← dropWs1 r
  let r ← dropKeyword "tran".data r
  match dropKeyword "saction".data r with
  | some r2 => if endBoundary r2 then some r2 else if endBoundary r then some r else none
  | none => if endBoundary r then some r else none

/-- The optional tail `(?:\s+TRAN(?:SACTION)?)?\b` of the COMMIT/ROLLBACK
patterns, with the greedy alternatives tried in regex order. -/
def tranTail (r : List Char) : Option (List Char) :=
  match dropWs1 r with
  | some r1 =>
    match dropKeyword "tran".data r1 with
    | some r2 =>
      match dropKeyword "saction".data r2 with
      | some r3 =>
        if endBoundary r3 then some r3
        else if endBoundary r2 then some r2
        else if endBoundary r then some r else none
      | none =>
        if endBoundary r2 then some r2
        else if endBoundary r then some r else none
    | none => if endBoundary r then some r else none
  | none => if endBoundary r then some r else none

/-- `COMMIT_TRAN_PATTERN = \bCOMMIT(?:\s+TRAN(?:SACTION)?)?\b`. -/
def mCommit (prev : Option Char) (l : List Char) : Option (List Char) := do
  guard (prevBoundary prev)
  let r ← dropKeyword "commit".data l
  tranTail r

/-- `ROLLBACK_TRAN_PATTERN = \bROLLBACK(?:\s+TRAN(?:SACTION)?)?\b`. -/
def mRollback (prev : Option Char) (l : List Char) : Option (List Char) := do
  guard (prevBoundary prev)
  let r ← dropKeyword "rollback".data l
  tranTail r

/-- `SAVE_TRAN_PATTERN = \bSAVE\s+TRAN(?:SACTION)?\b`. -/
def mSaveTran (prev : Option Char) (l : List Char) : Option (List Char) := do
  guard (prevBoundary prev)
  let r ← dropKeyword "save".data l
  let r ← dropWs1 r
  let r ← dropKeyword "tran".data r
  match dropKeyword "saction".data r with
  | some r2 => if endBoundary r2 then some r2 else if endBoundary r then some r else none
  | none => if endBoundary r then some r else none

/-- A pattern of the form `\bW1\s+W2\b` (e.g. `TRY_PATTERN`, `CATCH_PATTERN`). -/
def mTwoWords (w1 w2 : String) (prev : Option Char) (l : List Char) :
    Option (List Char) := do
  guard (prevBoundary prev)
  let r ← dropKeyword w1.data l
  let r ← dropWs1 r
  let r ← dropKeyword w2.data r
  if endBoundary r then some r else none

/-- A pattern of the form `\bW\b` (e.g. `THROW_PATTERN`, `RAISERROR_PATTERN`). -/
def mWord (w : String) (prev : Option Char) (l : List Char) : Option (List Char) := do
  guard (prevBoundary prev)
  let r ← dropKeyword w.data l
  if endBoundary r then some r else none

/-- `XACT_ABORT_PATTERN = \bSET\s+XACT_ABORT\s+(ON|OFF)\b`; captures the
upper-cased group 1, as the code does via `match.group(1).upper()`. -/
def mXactAbort (prev : Option Char) (l : List Char) : Option (List Char × String) := do
  guard (prevBoundary prev)
  let r ← dropKeyword "set".data l
  let r ← dropWs1 r
  let r ← dropKeyword "xact_abort".data r
  let r ← dropWs1 r
  match dropKeyword "on".data r with
  | some r2 => if endBoundary r2 then some (r2, "ON") else none
  | none => do
    let r2 ← dropKeyword "off".data r
    if endBoundary r2 then some (r2, "OFF") else none

/-- One isolation-level alternative `W1\s+W2`, capturing its canonical
(upper-case, single-space) form, which is what the code computes via
`" ".join(match.group(1).upper().split())`. -/
def isoTwoWords (w1 w2 : String) (r : List Char) : Option (List Char × String) := do
  let r ← dropKeyword w1.data r
  let r ← dropWs1 r
  let r ← dropKeyword w2.data r
  if endBoundary r then some (r, (toUpperS w1 ++ " " ++ toUpperS w2)) else none

def isoOneWord (w : String) (r : List Char) : Option (List Char × String) := do
  let r ← dropKeyword w.data r
  if endBoundary r then some (r, toUpperS w) else none

/-- `ISOLATION_PATTERN = \bSET\s+TRANSACTION\s+ISOLATION\s+LEVEL\s+(READ\s+
UNCOMMITTED|READ\s+COMMITTED|REPEATABLE\s+READ|SNAPSHOT|SERIALIZABLE)\b`, with
the alternatives tried in pattern order. -/
def mIsolation (prev : Option Char) (l : List Char) : Option (List Char × String) := do
  guard (prevBoundary prev)
  let r ← dropKeyword "set".data l
  let r ← dropWs1 r
  let r ← dropKeyword "transaction".data r
  let r ← dropWs1 r
  let r ← dropKeyword "isolation".data r
  let r ← dropWs1 r
  let r ← dropKeyword "level".data r
  let r ← dropWs1 r
  match isoTwoWords "read" "uncommitted" r with
  | some res => some res
  | none =>
    match isoTwoWords "read" "committed" r with
    | some res => some res
    | none =>
      match isoTwoWords "repeatable" "read" r with
      | some res => some res
      | none =>
        match isoOneWord "snapshot" r with
        | some res => some res
        | none => isoOneWord "serializable" r

/-- `TRANCOUNT_PATTERN = @@TRANCOUNT` (no word boundaries): a plain
case-insensitive substring. -/
def mTrancount (_prev : Option Char) (l : List Char) : Option (List Char) :=
  dropKeyword "@@trancount".data l

/-- `XACT_STATE_PATTERN = \bXACT_STATE\s*\(\s*\)`. -/
def mXactState (prev : Option Char) (l : List Char) : Option (List Char) := do
  guard (prevBoundary prev)
  let r ← dropKeyword "xact_state".data l
  let r ← dropKeyword "(".data (dropWsMany r)
  dropKeyword ")".data (dropWsMany r)

/-! ## `tsql_analyzer.analyze_transactions` -/

/-- Result shape of `analyze_transactions`. -/
structure TransactionsResult where
  uses_transaction : Bool
  begin_count : Nat
  commit_count : Nat
  rollback_count : Nat
  savepoint_count : Nat
  has_try_catch : Bool
  xact_abort : Option String
  isolation_level : Option String
  signals : List String
deriving Repr, DecidableEq

/-- The `add_signal` closure: dedup by membership and cap the list at 10. -/
def addSignal (s : String) (signals : List String) : List String :=
  if signals.contains s || signals.length ≥ 10 then signals else signals ++ [s]

def addSignalIf (b : Bool) (s : String) (signals : List String) : List String :=
  if b then addSignal s signals else signals

/-- `tsql_analyzer.analyze_transactions`: regex counts over the original SQL
(the input is neither comment-stripped nor string-masked anywhere in the
function), last-wins captures for `XACT_ABORT` and the isolation level, and
the capped insertion-ordered signal list. -/
def analyze_transactions (sql : String) : TransactionsResult :=
  let begin_count := countMatches mBeginTran sql
  let commit_count := countMatches mCommit sql
  let rollback_count := countMatches mRollback sql
  let savepoint_count := countMatches mSaveTran sql
  let has_try := hasMatch (mTwoWords "begin" "try") sql
  let has_catch := hasMatch (mTwoWords "begin" "catch") sql
  let has_try_catch := has_try && has_catch
  let xact_abort := (allCaptures mXactAbort sql).getLast?
  let isolation_level := (allCaptures mIsolation sql).getLast?
  let signals : List String :=
    addSignalIf (hasMatch (mWord "raiserror") sql) "RAISERROR" <|
    addSignalIf (hasMatch (mWord "throw") sql) "THROW" <|
    addSignalIf (hasMatch mXactState sql) "XACT_STATE()" <|
    addSignalIf (hasMatch mTrancount sql) "@@TRANCOUNT" <|
    addSignalIf isolation_level.isSome
      ("ISOLATION LEVEL " ++ isolation_level.getD "") <|
    addSignalIf xact_abort.isSome ("XACT_ABORT " ++ xact_abort.getD "") <|
    addSignalIf has_try_catch "TRY/CATCH" <|
    addSignalIf (savepoint_count ≠ 0) "SAVE TRAN" <|
    addSignalIf (rollback_count ≠ 0) "ROLLBACK" <|
    addSignalIf (commit_count ≠ 0) "COMMIT" <|
    addSignalIf (begin_count ≠ 0) "BEGIN TRAN" []
  { uses_transaction :=
      begin_count ≠ 0 || commit_count ≠ 0 || rollback_count ≠ 0 || savepoint_count ≠ 0
    begin_count := begin_count
    commit_count := commit_count
    rollback_count := rollback_count
    savepoint_count := savepoint_count
    has_try_catch := has_try_catch
    xact_abort := xact_abort
    isolation_level := isolation_level
    signals := signals }

/-! ## `tsql_analyzer.analyze_control_flow` -/

/-- The token classes of `CONTROL_FLOW_TOKEN_PATTERN` (after the mapping in
`_scan_control_flow_tokens`, which renames `begin_try` to `try` and
`begin_catch` to `catch`). -/
inductive CfToken where
  | tryT | catchT | ifT | whileT | returnT | gotoT
deriving Repr, DecidableEq

/-- `CONTROL_FLOW_TOKEN_PATTERN`: the alternation
`\bBEGIN\s+TRY\b|\bBEGIN\s+CATCH\b|\bIF\b|\bWHILE\b|\bRETURN\b|\bGOTO\b`,
alternatives tried in pattern order at each position. -/
def mCfToken (prev : Option Char) (l : List Char) : Option (List Char × CfToken) :=
  match mTwoWords "begin" "try" prev l with
  | some r => some (r, CfToken.tryT)
  | none =>
    match mTwoWords "begin" "catch" prev l with
    | some r => some (r, CfToken.catchT)
    | none =>
      match mWord "if" prev l with
      | some r => some (r, CfToken.ifT)
      | none =>
        match mWord "while" prev l with
        | some r => some (r, CfToken.whileT)
        | none =>
          match mWord "return" prev l with
          | some r => some (r, CfToken.returnT)
          | none =>
            match mWord "goto" prev l with
            | some r => some (r, CfToken.gotoT)
            | none => none

/-- `tsql_analyzer._scan_control_flow_tokens`. -/
def scan_control_flow_tokens (sql : String) : List CfToken :=
  allCaptures mCfToken sql

/-- The token classes of `CONTROL_FLOW_NESTING_PATTERN`. -/
inductive NestToken where
  | beginTry | beginCatch | endTry | endCatch | beginT | endT | ifT | whileT
deriving Repr, DecidableEq

/-- `CONTROL_FLOW_NESTING_PATTERN`: the alternation `\bBEGIN\s+TRY\b|
\bBEGIN\s+CATCH\b|\bEND\s+TRY\b|\bEND\s+CATCH\b|\bBEGIN\b|\bEND\b|\bIF\b|
\bWHILE\b` in pattern order. -/
def mNestToken (prev : Option Char) (l : List Char) : Option (List Char × NestToken) :=
  match mTwoWords "begin" "try" prev l with
  | some r => some (r, NestToken.beginTry)
  | none =>
    match mTwoWords "begin" "catch" prev l with
    | some r => some (r, NestToken.beginCatch)
    | none =>
      match mTwoWords "end" "try" prev l with
      | some r => some (r, NestToken.endTry)
      | none =>
        match mTwoWords "end" "catch" prev l with
        | some r => some (r, NestToken.endCatch)
        | none =>
          match mWord "begin" prev l with
          | some r => some (r, NestToken.beginT)
          | none =>
            match mWord "end" prev l with
            | some r => some (r, NestToken.endT)
            | none =>
              match mWord "if" prev l with
              | some r => some (r, NestToken.ifT)
              | none =>
                match mWord "while" prev l with
                | some r => some (r, NestToken.whileT)
                | none => none

/-- `tsql_analyzer._estimate_nesting_depth`: fold over the nesting tokens,
incrementing on the `begin`-like and `if`/`while` classes and decrementing
(floored at 0) on the `end`-like classes. -/
def estimate_nesting_depth (sql : String) : Nat :=
  let step : (Nat × Nat) → NestToken → (Nat × Nat) := fun (depth, maxDepth) t =>
    match t with
    | NestToken.beginTry | NestToken.beginCatch | NestToken.beginT
    | NestToken.ifT | NestToken.whileT =>
      (depth + 1, max maxDepth (depth + 1))
    | NestToken.endTry | NestToken.endCatch | NestToken.endT =>
      (depth - 1, maxDepth)
  ((allCaptures mNestToken sql).foldl step (0, 0)).2

/-- The `control_flow.summary` object of `analyze_control_flow`. -/
structure ControlFlowSummary where
  has_branching : Bool
  has_loops : Bool
  has_try_catch : Bool
  has_goto : Bool
  has_return : Bool
  branch_count : Nat
  loop_count : Nat
  return_count : Nat
  goto_count : Nat
  max_nesting_depth : Nat
  cyclomatic_complexity : Nat
deriving Repr, DecidableEq

/-- The summary part of `tsql_analyzer.analyze_control_flow`.  The counts the
code obtains from the optional `sqlglot.parse` AST (`ast_counts["if"]`,
`ast_counts["try"]`, `ast_counts["return"]`, each `0` when the parse fails or
finds no such node) are explicit inputs `astIf`, `astTry`, `astReturn`; the
code takes the `max` of each with the token-scan count.  The graph and signal
outputs of the function are not modelled here; the summary is computed exactly
as in the source. -/
def analyze_control_flow_summary (astIf astTry astReturn : Nat) (sql : String) :
    ControlFlowSummary :=
  let tokens := scan_control_flow_tokens sql
  let countIf := max astIf (tokens.countP (· == CfToken.ifT))
  let countWhile := tokens.countP (· == CfToken.whileT)
  let countTry := max astTry (tokens.countP (· == CfToken.tryT))
  let countCatch := tokens.countP (· == CfToken.catchT)
  let countReturn := max astReturn (tokens.countP (· == CfToken.returnT))
  let countGoto := tokens.countP (· == CfToken.gotoT)
  let has_try_catch := countTry ≠ 0 || countCatch ≠ 0
  let cyclomatic :=
    1 + countIf + countWhile + (if has_try_catch then 1 else 0) +
      (if countGoto > 0 then 1 else 0)
  { has_branching := countIf > 0
    has_loops := countWhile > 0
    has_try_catch := has_try_catch
    has_goto := countGoto > 0
    has_return := countReturn > 0
    branch_count := countIf
    loop_count := countWhile
    return_count := countReturn
    goto_count := countGoto
    max_nesting_depth := estimate_nesting_depth sql
    cyclomatic_complexity := cyclomatic }

/-! ## `analyze_error_handling` (modelled from the spec)

`analyze_error_handling` is imported from `app.services.tsql_analyzer` by five
modules and exercised by `tests/test_mcp_analyze_error_handling.py`, but no
definition of it exists in the provided source files. -/

/-- Result shape of `analyze_error_handling`, with the field names pinned by
the repository's tests. -/
structure ErrorHandlingResult where
  has_try_catch : Bool
  try_count : Nat
  catch_count : Nat
  uses_throw : Bool
  throw_count : Nat
  uses_raiserror : Bool
  raiserror_count : Nat
  uses_at_at_error : Bool
  at_at_error_count : Nat
  uses_error_functions : List String
  uses_print : Bool
  print_count : Nat
  uses_return : Bool
  return_count : Nat
  return_values : List Int
  uses_output_error_params : Bool
  output_error_params : List String
  signals : List String
deriving Repr, DecidableEq

/-- The fixed catalog of named error functions of the spec. -/
def errorFunctionNames : List String :=
  ["ERROR_NUMBER", "ERROR_MESSAGE", "ERROR_STATE", "ERROR_SEVERITY",
   "ERROR_LINE", "ERROR_PROCEDURE"]

/-- `\bNAME\s*\(`, detecting a call of a named error function. -/
def mErrorFunction (name : String) (prev : Option Char) (l : List Char) :
    Option (List Char) := do
  guard (prevBoundary prev)
  let r ← dropKeyword (toLowerS name).data l
  dropKeyword "(".data (dropWsMany r)

/-- `@@ERROR\b`. -/
def mAtAtError (_prev : Option Char) (l : List Char) : Option (List Char) := do
  let r ← dropKeyword "@@error".data l
  if endBoundary r then some r else none

/-- An optional signed integer literal `-?\d+`. -/
def digitsValue : List Char → Option (Nat × List Char)
  | c :: cs =>
    if c.isDigit then
      let ds := (c :: cs).takeWhile Char.isDigit
      some (ds.foldl (fun n d => 10 * n + (d.toNat - '0'.toNat)) 0,
        (c :: cs).dropWhile Char.isDigit)
    else none
  | [] => none

/-- `\bRETURN\b(?:\s+(-?\d+))?`: a RETURN statement with an optionally
captured integer return value. -/
def mReturnValue (prev : Option Char) (l : List Char) :
    Option (List Char × Option Int) := do
  guard (prevBoundary prev)
  let r ← dropKeyword "return".data l
  guard (endBoundary r)
  match dropWs1 r with
  | none => some (r, none)
  | some r1 =>
    match r1 with
    | '-' :: r2 =>
      match digitsValue r2 with
      | some (n, r3) => some (r3, some (-(n : Int)))
      | none => some (r, none)
    | _ =>
      match digitsValue r1 with
      | some (n, r3) => some (r3, some ((n : Int)))
      | none => some (r, none)

/-- An error-like parameter name per the spec's examples
(`@err*`, `@*error*`, `@ret*`). -/
def errorLikeName (name : String) : Bool :=
  let n := (toLowerS name).data
  "err".data.isPrefixOf n || containsSub "error".data n || "ret".data.isPrefixOf n

/-- `@(\w+)` followed, before the next `,`/`(`/`)`/newline, by the word
`OUTPUT`: a declared OUTPUT parameter.  Captures the parameter name. -/
def mOutputParam (prev : Option Char) (l : List Char) :
    Option (List Char × String) :=
  match l with
  | '@' :: rest =>
    if prevBoundary prev then
      match rest with
      | c :: _ =>
        if isWordChar c then
          let name := (rest.takeWhile isWordChar).asString
          let after := rest.dropWhile isWordChar
          let segment := after.takeWhile
            (fun c => !(c == ',' || c == '(' || c == ')' || c == '\n'))
          if countMatches (mWord "output") segment.asString > 0 then
            some (after, name)
          else none
        else none
      | [] => none
    else none
  | _ => none

/-- Modelled from the spec: `analyze_error_handling` (§4.8 of the spec; the
function is referenced throughout the source but its definition is missing
from the provided files).  Boolean and count fields for `BEGIN TRY`/`BEGIN
CATCH`, `THROW`, `RAISERROR`, `@@ERROR`, `PRINT` and `RETURN` (with captured
integer return values), the named error functions used, declared OUTPUT
parameters with error-like names, and a signals list mirroring the
booleans. -/
def analyze_error_handling (sql : String) : ErrorHandlingResult :=
  let try_count := countMatches (mTwoWords "begin" "try") sql
  let catch_count := countMatches (mTwoWords "begin" "catch") sql
  let throw_count := countMatches (mWord "throw") sql
  let raiserror_count := countMatches (mWord "raiserror") sql
  let at_at_error_count := countMatches mAtAtError sql
  let print_count := countMatches (mWord "print") sql
  let returns := allCaptures mReturnValue sql
  let return_count := returns.length
  let return_values := returns.filterMap id
  let error_functions :=
    errorFunctionNames.filter (fun n => hasMatch (mErrorFunction n) sql)
  let output_error_params :=
    ((allCaptures mOutputParam sql).filter errorLikeName).dedup
  let has_try_catch := try_count ≠ 0 && catch_count ≠ 0
  let uses_throw := throw_count ≠ 0
  let uses_raiserror := raiserror_count ≠ 0
  let uses_at_at_error := at_at_error_count ≠ 0
  let uses_print := print_count ≠ 0
  let uses_return := return_count ≠ 0
  let uses_output_error_params := output_error_params ≠ []
  let signals :=
    (if has_try_catch then ["TRY/CATCH"] else []) ++
    (if uses_throw then ["THROW"] else []) ++
    (if uses_raiserror then ["RAISERROR"] else []) ++
    (if uses_at_at_error then ["@@ERROR"] else []) ++
    error_functions ++
    (if uses_print then ["PRINT"] else []) ++
    (if uses_return then ["RETURN"] else []) ++
    (if uses_output_error_params then ["OUTPUT_PARAM"] else [])
  { has_try_catch := has_try_catch
    try_count := try_count
    catch_count := catch_count
    uses_throw := uses_throw
    throw_count := throw_count
    uses_raiserror := uses_raiserror
    raiserror_count := raiserror_count
    uses_at_at_error := uses_at_at_error
    at_at_error_count := at_at_error_count
    uses_error_functions := error_functions
    uses_print := uses_print
    print_count := print_count
    uses_return := uses_return
    return_count := return_count
    return_values := return_values
    uses_output_error_params := uses_output_error_params
    output_error_params := output_error_params
    signals := signals }

/-! ## `tsql_reusability.evaluate_reusability` (scoring core) -/

/-- The signals `evaluate_reusability` extracts from the primitive analyzers
before scoring (lines 76-93 of `tsql_reusability.py`). -/
structure ReusabilitySignals where
  has_writes : Bool
  uses_transaction : Bool
  has_dynamic_sql : Bool
  has_cursor : Bool
  uses_temp_objects : Bool
  external_system_impact : Bool
  table_count : Nat
  cyclomatic_complexity : Nat
deriving Repr, DecidableEq

structure ReusabilitySummary where
  score : Int
  grade : String
  is_candidate : Bool
deriving Repr, DecidableEq

/-- `tsql_reusability._grade`. -/
def reusability_grade (score : Int) : String :=
  if score ≥ 80 then "A"
  else if score ≥ 65 then "B"
  else if score ≥ 50 then "C"
  else "D"

/-- The scoring part of `tsql_reusability.evaluate_reusability`: the
sequential penalties/bonus of lines 95-282, the clamp, the grade, and
`is_candidate`.  (The reason/recommendation payloads and `candidate_type`,
which no claim references, are not modelled.) -/
def evaluate_reusability_summary (s : ReusabilitySignals) : ReusabilitySummary :=
  let score : Int := 100
  let score := if s.has_writes then score - 25 else score
  let score := if s.uses_transaction then score - 15 else score
  let score := if s.has_dynamic_sql then score - 20 else score
  let score := if s.has_cursor then score - 20 else score
  let score := if s.uses_temp_objects then score - 10 else score
  let score :=
    if 5 < s.table_count then score - min 20 (((s.table_count : Int) - 5) * 2)
    else score
  let score :=
    if 5 < s.cyclomatic_complexity then
      score - min 20 (((s.cyclomatic_complexity : Int) - 5) * 2)
    else score
  let score := if s.external_system_impact then score - 25 else score
  let score :=
    if !s.has_writes && !s.uses_transaction && !s.has_dynamic_sql &&
        s.cyclomatic_complexity ≤ 3 then
      score + 5
    else score
  let score := max 0 (min 100 score)
  { score := score
    grade := reusability_grade score
    is_candidate := score ≥ 65 }

/-- The claim's closed-form description of the reusability score: 100 minus
the eight penalties plus the conditional bonus, clamped to 0..100. -/
def reusabilitySpecScore (s : ReusabilitySignals) : Int :=
  max 0 (min 100 (100
    - (if s.has_writes then 25 else 0)
    - (if s.uses_transaction then 15 else 0)
    - (if s.has_dynamic_sql then 20 else 0)
    - (if s.has_cursor then 20 else 0)
    - (if s.uses_temp_objects then 10 else 0)
    - (if 5 < s.table_count then min 20 (((s.table_count : Int) - 5) * 2) else 0)
    - (if 5 < s.cyclomatic_complexity then
        min 20 (((s.cyclomatic_complexity : Int) - 5) * 2) else 0)
    - (if s.external_system_impact then 25 else 0)
    + (if !s.has_writes && !s.uses_transaction && !s.has_dynamic_sql &&
          s.cyclomatic_complexity ≤ 3 then 5 else 0)))

/-! ## `tsql_mybatis_difficulty._apply_max_items` and error assembly -/

def mybatisTruncationMsg : String :=
  "max_reason_items_exceeded: truncated factors and recommendations"

/-- `tsql_mybatis_difficulty._apply_max_items`. -/
def apply_max_items {F R : Type} (factors : List F) (recommendations : List R)
    (max_items : Int) : List F × List R × Bool × Option String :=
  if max_items ≤ 0 then ([], [], true, some mybatisTruncationMsg)
  else if (factors.length + recommendations.length : Int) ≤ max_items then
    (factors, recommendations, false, none)
  else if (factors.length : Int) ≥ max_items then
    (factors.take max_items.toNat, [], true, some mybatisTruncationMsg)
  else
    (factors, recommendations.take (max_items.toNat - factors.length), true,
      some mybatisTruncationMsg)

/-- `tsql_mybatis_difficulty._sorted_unique`: `sorted({item for item in items
if item})`. -/
def sorted_unique (items : List String) : List String :=
  ((items.filter (fun s => s ≠ "")).dedup).insertionSort strLe

/-- The error assembly of `evaluate_mybatis_difficulty` (lines 225-231):
sub-analyzer errors are sorted/deduplicated, then the truncation error, when
present, is appended once. -/
def mybatis_errors (subErrors : List String) (truncationError : Option String) :
    List String :=
  sorted_unique subErrors ++ truncationError.toList

/-! ## `tsql_call_graph`: name normalization and call resolution -/

/-- `tsql_call_graph._clean_identifier`. -/
def clean_identifier (part : String) : String :=
  let p := (pyStrip part).data
  if p.head? = some '[' && p.getLast? = some ']' && p.length > 1 then
    ((p.drop 1).dropLast).asString
  else if p.head? = some '"' && p.getLast? = some '"' && p.length > 1 then
    ((p.drop 1).dropLast).asString
  else p.asString

/-- The shared part pipeline of `_normalize_full_name` / `_split_identifier`:
`re.split(r"\.", name)`, drop blank parts, clean each, optionally lowercase. -/
def nameParts (case_insensitive : Bool) (name : String) : List String :=
  let parts := (((splitOnChar '.' name.data).map List.asString).filter
    (fun p => pyStrip p ≠ "")).map clean_identifier
  if case_insensitive then parts.map toLowerS else parts

/-- `tsql_call_graph._normalize_full_name`. -/
def normalize_full_name (case_insensitive : Bool) (name : String) : String :=
  intercalateDot (nameParts case_insensitive name)

/-- `tsql_call_graph._split_identifier` (the `(schema, base_name)` pair). -/
def split_identifier (case_insensitive : Bool) (name : String) :
    Option String × String :=
  let parts := nameParts case_insensitive name
  match parts.reverse with
  | [] => (none, "")
  | [b] => (none, b)
  | b :: s :: _ => (some s, b)

/-- A call-graph node (`{id, name, type}`). -/
structure CgNode where
  id : String
  name : String
  type : String
deriving Repr, DecidableEq

/-- A structured call-graph error (`{id, message, object}`). -/
structure CgError where
  id : String
  message : String
  object : String
deriving Repr, DecidableEq

/-- The mutable state threaded through `_resolve_target` calls inside
`build_call_graph`: the `ambiguous_calls` set (kept here as the
insertion-ordered list of distinct keys) and the `errors` list. -/
structure ResolveState where
  ambiguous : List (String × String)
  errors : List CgError
deriving Repr, DecidableEq

/-- `_index_base_name` accumulated over the node ids: the `base_name_index`
dict mapping each base name to the node ids carrying it, in insertion
order. -/
def indexInsert (key v : String) :
    List (String × List String) → List (String × List String)
  | [] => [(key, [v])]
  | (k, vs) :: rest =>
    if k = key then (k, vs ++ [v]) :: rest else (k, vs) :: indexInsert key v rest

def base_name_index (ids : List String) : List (String × List String) :=
  ids.foldl (fun acc i => indexInsert (split_identifier false i).2 i acc) []

def indexGet (idx : List (String × List String)) (key : String) : List String :=
  ((idx.find? (fun p => p.1 = key)).map (fun p => p.2)).getD []

/-- `node_by_id.get(target_id)` followed by the type test of
`_is_target_type`. -/
def isTargetType (nodes : List CgNode) (objectType : String) (targetId : String) :
    Bool :=
  match nodes.find? (fun n => n.id = targetId) with
  | some n => toLowerS n.type = objectType
  | none => false

def ambiguousMessage (base : String) : String :=
  "Call to " ++ base ++ " is ambiguous across schemas."

def mkAmbiguousError (key : String × String) : CgError :=
  { id := "AMBIGUOUS_TARGET", message := ambiguousMessage key.2, object := key.1 }

/-- `tsql_call_graph._resolve_target`.  Returns the resolved node id (an edge
is recorded by the caller exactly when this is `some`) and the updated
state. -/
def resolve_target (case_insensitive schema_sensitive : Bool)
    (nodes : List CgNode) (baseIndex : List (String × List String))
    (objectType callerName name : String) (st : ResolveState) :
    Option String × ResolveState :=
  let normalized := normalize_full_name case_insensitive name
  let schema := (split_identifier false normalized).1
  let base := (split_identifier false normalized).2
  if schema_sensitive then
    if schema.isNone then (none, st)
    else if (nodes.any (fun n => n.id = normalized)) &&
        isTargetType nodes objectType normalized then
      (some normalized, st)
    else (none, st)
  else if schema.isSome && (nodes.any (fun n => n.id = normalized)) &&
      isTargetType nodes objectType normalized then
    (some normalized, st)
  else
    match (indexGet baseIndex base).filter (isTargetType nodes objectType) with
    | [] => (none, st)
    | [c] => (some c, st)
    | _ :: _ :: _ =>
      if st.ambiguous.contains (callerName, base) then (none, st)
      else
        (none,
          { ambiguous := st.ambiguous ++ [(callerName, base)]
            errors := st.errors ++ [mkAmbiguousError (callerName, base)] })

/-- One scanned call: the matched name and the object type it resolves
against (`"procedure"` for `EXEC` matches, `"function"` for call-site
matches). -/
structure CgCall where
  name : String
  objectType : String
deriving Repr, DecidableEq

/-- The resolution loop of `build_call_graph` for one caller, restricted to
target resolution: each scanned call is resolved in order against the shared
state, and the resolved ids (the recorded edge targets) are collected. -/
def resolve_calls (case_insensitive schema_sensitive : Bool)
    (nodes : List CgNode) (baseIndex : List (String × List String))
    (callerName : String) :
    List CgCall → ResolveState → List String × ResolveState
  | [], st => ([], st)
  | c :: cs, st =>
    let (res, st') := resolve_target case_insensitive schema_sensitive nodes
      baseIndex c.objectType callerName c.name st
    let (rest, st'') :=
      resolve_calls case_insensitive schema_sensitive nodes baseIndex
        callerName cs st'
    (res.toList ++ rest, st'')

/-! ## `rag_lexical`: TF-IDF index and search

Weights live in `ℚ`; the transcendental `math.log` and `math.sqrt` are
explicit function parameters `log, sqrt : ℚ → ℚ`, so every theorem below is
quantified over their behaviour (and in particular holds for the real
functions). -/

/-- `rag_lexical.DocChunk`. -/
structure DocChunk where
  doc_id : String
  title : String
  source : String
  text : String
  chunk_id : Nat
deriving Repr, DecidableEq

/-- `rag_lexical.Index`: per-chunk term-weight vectors, per-chunk L2 norms
and the idf table, as association lists. -/
structure TfIdfIndex where
  chunks : List DocChunk
  vectors : List (List (String × ℚ))
  norms : List ℚ
  idf : List (String × ℚ)
  case_insensitive : Bool
deriving DecidableEq

/-- `rag_lexical.Hit`. -/
structure Hit where
  doc_id : String
  title : String
  source : String
  score : ℚ
  text : String
deriving Repr, DecidableEq

/-- `TOKEN_PATTERN.findall`: maximal runs of `\w` characters. -/
def wordRuns (l : List Char) : List (List Char) :=
  let step : Char → List (List Char) × List Char → List (List Char) × List Char :=
    fun c (runs, cur) =>
      if isWordChar c then (runs, c :: cur)
      else (if cur = [] then runs else cur :: runs, [])
  let (runs, cur) := l.foldr step ([], [])
  if cur = [] then runs else cur :: runs

/-- `rag_lexical._tokenize`. -/
def tokenize (case_insensitive : Bool) (text : String) : List String :=
  let t := if case_insensitive then toLowerS text else text
  (wordRuns t.data).map List.asString

/-- `collections.Counter` over a token list: term frequencies as an
association list in first-occurrence order. -/
def counterIncr : List (String × Nat) → String → List (String × Nat)
  | [], t => [(t, 1)]
  | (k, n) :: rest, t =>
    if k = t then (k, n + 1) :: rest else (k, n) :: counterIncr rest t

def counter (tokens : List String) : List (String × Nat) :=
  tokens.foldl counterIncr []

/-- `dict.get(term, 0.0)` on an association list. -/
def alookup (assoc : List (String × ℚ)) (t : String) : ℚ :=
  (((assoc.find? (fun p => p.1 = t)).map (fun p => p.2)).getD 0)

/-- The token lists of the chunks. -/
def chunkTokenLists (case_insensitive : Bool) (chunks : List DocChunk) :
    List (List String) :=
  chunks.map (fun c => tokenize case_insensitive c.text)

/-- The document-frequency table: each chunk's distinct terms counted once
(`df.update(set(tokens))`). -/
def documentFrequencies (case_insensitive : Bool) (chunks : List DocChunk) :
    List (String × Nat) :=
  (chunkTokenLists case_insensitive chunks).foldl
    (fun acc toks => toks.dedup.foldl counterIncr acc) []

/-- `idf = {term: log((N+1)/(df+1)) + 1}`. -/
def idfTable (log : ℚ → ℚ) (case_insensitive : Bool) (chunks : List DocChunk) :
    List (String × ℚ) :=
  (documentFrequencies case_insensitive chunks).map (fun p =>
    (p.1, log (((chunks.length : ℚ) + 1) / ((p.2 : ℚ) + 1)) + 1))

/-- Per-chunk term weights `(1 + log(tf)) * idf.get(term, 0)`. -/
def chunkVector (log : ℚ → ℚ) (idf : List (String × ℚ)) (toks : List String) :
    List (String × ℚ) :=
  (counter toks).map (fun p => (p.1, (1 + log (p.2 : ℚ)) * alookup idf p.1))

/-- `sqrt(sum(w*w))`. -/
def vectorNorm (sqrt : ℚ → ℚ) (v : List (String × ℚ)) : ℚ :=
  sqrt ((v.map (fun p => p.2 * p.2)).sum)

/-- `rag_lexical.build_index`. -/
def build_index (log sqrt : ℚ → ℚ) (chunks : List DocChunk)
    (case_insensitive : Bool) : TfIdfIndex :=
  if chunks = [] then
    { chunks := [], vectors := [], norms := [], idf := [],
      case_insensitive := case_insensitive }
  else
    let idf := idfTable log case_insensitive chunks
    let vectors := (chunkTokenLists case_insensitive chunks).map (chunkVector log idf)
    { chunks := chunks, vectors := vectors,
      norms := vectors.map (vectorNorm sqrt), idf := idf,
      case_insensitive := case_insensitive }

/-- `sum(query_weights.get(term, 0.0) * vector.get(term, 0.0) for term in
query_weights)`. -/
def dotQ (qw vec : List (String × ℚ)) : ℚ :=
  (qw.map (fun p => p.2 * alookup vec p.1)).sum

/-- The hit-construction loop of `search` over the strict
`zip(chunks, vectors, norms)`: skip zero-norm chunks and non-positive dot
products, score the rest by `dot / (query_norm * norm)`. -/
def searchHits (qw : List (String × ℚ)) (qnorm : ℚ) :
    List DocChunk → List (List (String × ℚ)) → List ℚ → List Hit
  | c :: cs, v :: vs, n :: ns =>
    if n = 0 then searchHits qw qnorm cs vs ns
    else
      let dot := dotQ qw v
      if dot ≤ 0 then searchHits qw qnorm cs vs ns
      else
        { doc_id := c.doc_id, title := c.title, source := c.source,
          score := dot / (qnorm * n), text := c.text } ::
          searchHits qw qnorm cs vs ns
  | _, _, _ => []

/-- The sort key relation `(-score, doc_id)` of `hits.sort` (Python compares
the tie-breaking `doc_id`s code point by code point). -/
def hitLE (a b : Hit) : Prop :=
  b.score < a.score ∨ (a.score = b.score ∧ strLe a.doc_id b.doc_id)

instance : DecidableRel hitLE := fun a b => by
  unfold hitLE; exact inferInstance

/-- The query-side term weights (same tf weighting against the stored idf). -/
def queryWeights (log : ℚ → ℚ) (index : TfIdfIndex) (query : String) :
    List (String × ℚ) :=
  (counter (tokenize index.case_insensitive query)).map
    (fun p => (p.1, (1 + log (p.2 : ℚ)) * alookup index.idf p.1))

def queryNorm (log sqrt : ℚ → ℚ) (index : TfIdfIndex) (query : String) : ℚ :=
  vectorNorm sqrt (queryWeights log index query)

/-- `rag_lexical.search`. -/
def search (log sqrt : ℚ → ℚ) (index : TfIdfIndex) (query : String)
    (top_k : Int) : List Hit :=
  if pyStrip query = "" then []
  else if tokenize index.case_insensitive query = [] then []
  else if queryNorm log sqrt index query = 0 then []
  else
    let hits := searchHits (queryWeights log index query)
      (queryNorm log sqrt index query) index.chunks index.vectors index.norms
    (hits.insertionSort hitLE).take (max top_k 0).toNat

/-! ## `tsql_analyzer.analyze_data_changes` -/

/-- `tsql_analyzer._strip_sql_comments`: block comments then `--[^\n]*`
replaced by one space each (no string masking in this helper). -/
def strip_sql_comments (sql : String) : String :=
  (stripLine (stripBlock sql.data)).asString

/-- A `[\w$#]` character of `TABLE_NAME_PATTERN`'s word-identifier
alternative. -/
def isTableChar (c : Char) : Bool := isWordChar c || c == '$' || c == '#'

/-- One identifier of `TABLE_NAME_PATTERN`: `\[[^\]]+\]` (tried first) or
`[A-Za-z_][\w$#]*`. -/
def identDrop : List Char → Option (List Char)
  | '[' :: rest =>
    let body := rest.takeWhile (fun c => c ≠ ']')
    if body = [] then none
    else
      match rest.dropWhile (fun c => c ≠ ']') with
      | ']' :: r => some r
      | _ => none
  | c :: cs =>
    if c.isAlpha || c == '_' then some (cs.dropWhile isTableChar) else none
  | [] => none

/-- One `\s*\.\s*` + identifier extension of `TABLE_NAME_PATTERN`. -/
def extDrop (l : List Char) : Option (List Char) :=
  match dropWsMany l with
  | '.' :: r => identDrop (dropWsMany r)
  | _ => none

/-- `TABLE_NAME_PATTERN`: an identifier with up to two greedy dotted
extensions (nothing follows the group in the data-change patterns, so the
greedy maximum is the match). -/
def tableDrop (l : List Char) : Option (List Char) := do
  let r ← identDrop l
  match extDrop r with
  | some r1 =>
    match extDrop r1 with
    | some r2 => some r2
    | none => some r1
  | none => some r

/-- The raw text consumed between `l` and its suffix `rest`. -/
def consumedText (l rest : List Char) : String :=
  (l.take (l.length - rest.length)).asString

/-- Positions (plus captures) of the non-overlapping matches of a capturing
matcher, embedding `p.finditer` with `match.start()`. -/
def scanPositions {α : Type} (m : Option Char → List Char → Option (List Char × α)) :
    Nat → Option Char → Nat → List Char → List (Nat × α)
  | 0, _, _, _ => []
  | _ + 1, _, _, [] => []
  | fuel + 1, prev, pos, c :: cs =>
    match m prev (c :: cs) with
    | some (rest, a) =>
      (pos, a) ::
        scanPositions m fuel (lastConsumed (c :: cs) rest)
          (pos + ((c :: cs).length - rest.length)) rest
    | none => scanPositions m fuel (some c) (pos + 1) cs

def allPositions {α : Type} (m : Option Char → List Char → Option (List Char × α))
    (l : List Char) : List (Nat × α) :=
  scanPositions m l.length none 0 l

/-- A keyword-prefixed table pattern
`\bW1(\s+W2)...\s+{TABLE_NAME_PATTERN}`, capturing the raw table text. -/
def mWordsTable (ws : List String) (prev : Option Char) (l : List Char) :
    Option (List Char × String) := do
  guard (prevBoundary prev)
  let r ← (ws.foldlM (fun (acc : List Char × Bool) w => do
      let r ← if acc.2 then dropWs1 acc.1 else some acc.1
      let r ← dropKeyword w.data r
      pure (r, true)) (l, false))
  let r ← dropWs1 r.1
  let r2 ← tableDrop r
  some (r2, consumedText r r2)

/-- `DELETE_ALIAS_PATTERN = \bDELETE\s+\w+\s+FROM\s+{TABLE}`. -/
def mDeleteAlias (prev : Option Char) (l : List Char) :
    Option (List Char × String) := do
  guard (prevBoundary prev)
  let r ← dropKeyword "delete".data l
  let r ← dropWs1 r
  match r with
  | c :: _ =>
    if isWordChar c then do
      let r := r.dropWhile isWordChar
      let r ← dropWs1 r
      let r ← dropKeyword "from".data r
      let r ← dropWs1 r
      let r2 ← tableDrop r
      some (r2, consumedText r r2)
    else none
  | [] => none

/-- `\bINTO\s+{TABLE}` (the lazy tail of `SELECT_INTO_PATTERN`). -/
def mIntoTable (prev : Option Char) (l : List Char) :
    Option (List Char × String) := do
  guard (prevBoundary prev)
  let r ← dropKeyword "into".data l
  let r ← dropWs1 r
  let r2 ← tableDrop r
  some (r2, consumedText r r2)

/-- The lazy `[\s\S]*?` search for the earliest `\bINTO\s+{TABLE}` after a
`SELECT`. -/
def findIntoTable : Nat → Option Char → List Char → Option (List Char × String)
  | 0, _, _ => none
  | _ + 1, _, [] => none
  | fuel + 1, prev, c :: cs =>
    match mIntoTable prev (c :: cs) with
    | some res => some res
    | none => findIntoTable fuel (some c) cs

/-- `SELECT_INTO_PATTERN = \bSELECT\b[\s\S]*?\bINTO\s+{TABLE}`. -/
def mSelectInto (prev : Option Char) (l : List Char) :
    Option (List Char × String) := do
  guard (prevBoundary prev)
  let r ← dropKeyword "select".data l
  guard (endBoundary r)
  findIntoTable r.length (lastConsumed l r) r

/-- `tsql_analyzer._normalize_identifier`. -/
def normalize_identifier (identifier : String) : Option String :=
  let cleaned := (pyStrip identifier).data
  if cleaned = [] then none
  else
    let cleaned :=
      if cleaned.head? = some '[' && cleaned.getLast? = some ']' then
        (cleaned.drop 1).dropLast
      else cleaned
    let cleaned :=
      if cleaned.head? = some '"' && cleaned.getLast? = some '"' then
        (cleaned.drop 1).dropLast
      else cleaned
    if cleaned = [] then none else some cleaned.asString

/-- Strip the given characters from both ends (Python `str.strip(chars)`). -/
def stripEnds (p : Char → Bool) (s : List Char) : List Char :=
  ((s.dropWhile p).reverse.dropWhile p).reverse

/-- `tsql_analyzer._normalize_table_name`. -/
def normalize_table_name (raw : String) : Option String :=
  if raw = "" then none
  else
    let r := (pyStrip raw).data
    let r := stripEnds (fun c => c == ';') r
    let r := stripEnds (fun c => c == '(' || c == ')') r
    let parts := ((splitOnChar '.' r).map List.asString).filterMap
      normalize_identifier
    if parts = [] then none
    else some (toUpperS (intercalateDot parts))

/-- `tsql_analyzer._sorted_unique`. -/
def sortedUniqueUpper (values : List String) : List String :=
  (((values.filter (fun v => v ≠ "")).map toUpperS).dedup).insertionSort strLe

/-- `is_merge_context` of `_fallback_data_changes`: look for `\bMERGE\b`
between the last `;` before the match (or the start of the text) and the
match position. -/
def is_merge_context (stripped : List Char) (start : Nat) : Bool :=
  let before := stripped.take start
  let statementStart :=
    match before.reverse.findIdx? (fun c => c = ';') with
    | some i => before.length - 1 - i
    | none => 0
  let context := before.drop statementStart
  scanCount (mWord "merge") context.length none context > 0

/-- Per-operation payload of `_fallback_data_changes`. -/
structure FallbackOp where
  count : Nat
  tables : List String
  unknown : Bool
deriving Repr, DecidableEq

structure FallbackOps where
  insert : FallbackOp
  update : FallbackOp
  delete : FallbackOp
  merge : FallbackOp
  truncate : FallbackOp
  select_into : FallbackOp
deriving Repr, DecidableEq

/-- Fold a list of (normalized) capture results into a `FallbackOp`
(`add_match` plus the final `_sorted_unique`). -/
def mkFallbackOp (captures : List (Option String)) : FallbackOp :=
  { count := captures.length
    tables := sortedUniqueUpper (captures.filterMap id)
    unknown := captures.any (fun c => c.isNone) }

/-- `tsql_analyzer._fallback_data_changes`. -/
def fallback_data_changes (sql : String) : FallbackOps :=
  let stripped := (strip_sql_comments sql).data
  let matchesOf (m : Option Char → List Char → Option (List Char × String)) :=
    allPositions m stripped
  let notMerge (p : Nat × String) := !is_merge_context stripped p.1
  let norm (p : Nat × String) := normalize_table_name p.2
  { insert := mkFallbackOp ((matchesOf (mWordsTable ["insert", "into"])).map norm)
    update := mkFallbackOp
      (((matchesOf (mWordsTable ["update"])).filter notMerge).map norm)
    delete := mkFallbackOp
      ((((matchesOf (mWordsTable ["delete", "from"])).filter notMerge).map norm) ++
        (((matchesOf mDeleteAlias).filter notMerge).map norm))
    merge := mkFallbackOp ((matchesOf (mWordsTable ["merge", "into"])).map norm)
    truncate := mkFallbackOp ((matchesOf (mWordsTable ["truncate", "table"])).map norm)
    select_into := mkFallbackOp ((matchesOf mSelectInto).map norm) }

/-- The statement AST produced by the external `sqlglot.parse`, restricted to
the node classes `analyze_data_changes` inspects.  Each write node carries the
already-resolved target of `_table_name_from_expression` (an `Option String`);
every other expression node is `node`.  `find_all` visits a node and all of
its descendants; `find_ancestor(exp.Merge)` asks whether some strict ancestor
is a `merge` node. -/
inductive SqlAst where
  | insert (target : Option String) (children : List SqlAst)
  | update (target : Option String) (children : List SqlAst)
  | delete (target : Option String) (children : List SqlAst)
  | merge (target : Option String) (children : List SqlAst)
  | selectInto (target : Option String) (children : List SqlAst)
  | node (children : List SqlAst)

inductive WriteOp where
  | insert | update | delete | merge | select_into
deriving Repr, DecidableEq

mutual

/-- The AST walk of `analyze_data_changes` (lines 560-579): all `Insert`,
`Delete`, `Merge` and into-`Select` nodes are collected; an `Update` node is
skipped exactly when it has a `Merge` ancestor (`node.find_ancestor(exp.Merge)`
— the source applies this test to `Update` nodes only). -/
def astCollect (inMerge : Bool) : SqlAst → List (WriteOp × Option String)
  | SqlAst.insert t cs => (WriteOp.insert, t) :: astCollectList inMerge cs
  | SqlAst.update t cs =>
    (if inMerge then [] else [(WriteOp.update, t)]) ++ astCollectList inMerge cs
  | SqlAst.delete t cs => (WriteOp.delete, t) :: astCollectList inMerge cs
  | SqlAst.merge t cs => (WriteOp.merge, t) :: astCollectList true cs
  | SqlAst.selectInto t cs =>
    (WriteOp.select_into, t) :: astCollectList inMerge cs
  | SqlAst.node cs => astCollectList inMerge cs

def astCollectList (inMerge : Bool) : List SqlAst → List (WriteOp × Option String)
  | [] => []
  | a :: rest => astCollect inMerge a ++ astCollectList inMerge rest

end

def astCollectAll (exprs : List SqlAst) : List (WriteOp × Option String) :=
  astCollectList false exprs

/-- Final per-operation payload of `analyze_data_changes`. -/
structure DataOp where
  count : Nat
  tables : List String
deriving Repr, DecidableEq

structure DataChanges where
  has_writes : Bool
  insert : DataOp
  update : DataOp
  delete : DataOp
  merge : DataOp
  truncate : DataOp
  select_into : DataOp
  notes : List String
deriving Repr, DecidableEq

/-- The AST-side accumulation for one op: count, target set, unknown flag. -/
def astOpAcc (collected : List (WriteOp × Option String)) (op : WriteOp) :
    Nat × List String × Bool :=
  let hits := (collected.filter (fun p => p.1 = op)).map (fun p => p.2)
  (hits.length, hits.filterMap id, hits.any (fun c => c.isNone))

/-- The per-op combination of `analyze_data_changes` (lines 584-595): the
fallback payload replaces the AST payload when the parse failed or the AST
count is zero; tables are then sorted; a note is emitted when the op was
detected, no table resolved and an unknown target was seen. -/
def combineOp (parseFailed : Bool) (ast : Nat × List String × Bool)
    (fb : FallbackOp) : DataOp × Bool :=
  if parseFailed || ast.1 = 0 then
    ({ count := fb.count, tables := fb.tables.dedup.insertionSort strLe },
      fb.unknown)
  else
    ({ count := ast.1, tables := ast.2.1.dedup.insertionSort strLe },
      ast.2.2)

def opNote (name : String) (op : DataOp) (unknown : Bool) : List String :=
  if op.count > 0 && op.tables = [] && unknown then
    [name ++ " detected but target table uncertain."]
  else []

/-- `tsql_analyzer.analyze_data_changes` (operation counts, tables, notes and
`has_writes`; the `table_operations` and `signals` outputs are not referenced
by any claim and are not modelled).  The external `sqlglot.parse` result is
the explicit input `parsed`: `none` models the exception path (`parse_failed`)
and `some exprs` a successful parse. -/
def analyze_data_changes (parsed : Option (List SqlAst)) (sql : String) :
    DataChanges :=
  let parseFailed := parsed.isNone
  let collected := astCollectAll (parsed.getD [])
  let fb := fallback_data_changes sql
  let insert := combineOp parseFailed (astOpAcc collected WriteOp.insert) fb.insert
  let update := combineOp parseFailed (astOpAcc collected WriteOp.update) fb.update
  let delete := combineOp parseFailed (astOpAcc collected WriteOp.delete) fb.delete
  let merge := combineOp parseFailed (astOpAcc collected WriteOp.merge) fb.merge
  let truncate := combineOp parseFailed (0, [], false) fb.truncate
  let select_into :=
    combineOp parseFailed (astOpAcc collected WriteOp.select_into) fb.select_into
  { has_writes :=
      insert.1.count > 0 || update.1.count > 0 || delete.1.count > 0 ||
        merge.1.count > 0 || truncate.1.count > 0 || select_into.1.count > 0
    insert := insert.1
    update := update.1
    delete := delete.1
    merge := merge.1
    truncate := truncate.1
    select_into := select_into.1
    notes :=
      opNote "INSERT" insert.1 insert.2 ++ opNote "UPDATE" update.1 update.2 ++
        opNote "DELETE" delete.1 delete.2 ++ opNote "MERGE" merge.1 merge.2 ++
        opNote "TRUNCATE" truncate.1 truncate.2 ++
        opNote "SELECT_INTO" select_into.1 select_into.2 }

/-! ## Supporting lemmas -/

theorem ascii_utf8_len : ∀ (l : List Char), (∀ c ∈ l, c.toNat < 128) →
    ((l.map charUtf8Bytes).flatten).length = l.length := by
  intro l
  induction l with
  | nil => intro _; rfl
  | cons c cs ih =>
    intro h
    have hc : c.toNat < 128 := h c (List.mem_cons_self c cs)
    have : charUtf8Bytes c = [c.toNat] := by
      unfold charUtf8Bytes
      simp only []
      rw [if_pos hc]
    simp only [List.map_cons, List.flatten_cons, List.length_append, this,
      List.length_cons, List.length_nil]
    rw [ih (fun x hx => h x (List.mem_cons_of_mem c hx))]
    omega

/-! ## C3 -/

/-- C3 (counterexample): the claim states that `summarize` returns `len`
equal to the UTF-8 byte length of the input for every SQL string including
non-ASCII ones.  On the one-character input `"é"` the code's `len(sql)` is 1
while the UTF-8 byte length is 2, so the claim is false (for any behaviour of
the external hash function). -/
theorem c3_len_counterexample :
    (summarize_sql (fun _ => "") "é").len = 1 ∧ utf8Len "é" = 2 ∧
      (summarize_sql (fun _ => "") "é").len ≠ utf8Len "é" := by decide

/-- C3 (amended): `summarize` returns `len` equal to the number of Unicode
code points of the input (Python `len`), which coincides with the UTF-8 byte
length exactly on ASCII inputs, and `sha256_8` equal to the first 8
characters of the hex digest of the input's UTF-8 encoding. -/
theorem c3_summarize_len (sha256hex : List Nat → String) (sql : String) :
    (summarize_sql sha256hex sql).len = sql.length ∧
    (summarize_sql sha256hex sql).sha256_8 =
      ((sha256hex (utf8Bytes sql)).toList.take 8).asString ∧
    ((∀ c ∈ sql.data, c.toNat < 128) →
      (summarize_sql sha256hex sql).len = utf8Len sql) := by
  refine ⟨rfl, rfl, fun h => ?_⟩
  show sql.length = utf8Len sql
  rw [utf8Len, utf8Bytes, ascii_utf8_len sql.data h]
  rfl

/-- C3 (witness for `c3_summarize_len`): the ASCII hypothesis discharged at
`"SELECT 1"`. -/
theorem c3_summarize_len_witness :
    (summarize_sql (fun _ => "") "SELECT 1").len = 8 ∧
      (summarize_sql (fun _ => "") "SELECT 1").len = utf8Len "SELECT 1" :=
  ⟨by decide, (c3_summarize_len (fun _ => "") "SELECT 1").2.2 (by decide)⟩

/-! ## C5 -/

/-- C5: for every SQL input and every count triple obtained from the optional
AST, the control-flow summary satisfies `cyclomatic_complexity = 1 +
branch_count + loop_count + (has_try_catch ? 1 : 0) + (goto_count > 0 ? 1 :
0)` over its own reported fields, and `analyze("SELECT 1")` (whose AST
contains no if/try/return node) reports `cyclomatic_complexity = 1`. -/
theorem c5_cyclomatic_formula (astIf astTry astReturn : Nat) (sql : String) :
    ((analyze_control_flow_summary astIf astTry astReturn sql).cyclomatic_complexity =
      1 + (analyze_control_flow_summary astIf astTry astReturn sql).branch_count +
        (analyze_control_flow_summary astIf astTry astReturn sql).loop_count +
        (if (analyze_control_flow_summary astIf astTry astReturn sql).has_try_catch
          then 1 else 0) +
        (if 0 < (analyze_control_flow_summary astIf astTry astReturn sql).goto_count
          then 1 else 0)) ∧
    (analyze_control_flow_summary 0 0 0 "SELECT 1").cyclomatic_complexity = 1 := by
  constructor
  · rfl
  · decide

/-! ## C10 -/

/-- C10: `_apply_max_items` drops recommendations before factors — when the
factors alone reach the cap all recommendations are dropped and the factors
are trimmed to the cap, otherwise all factors are kept and the
recommendations are trimmed to the remaining budget; every truncating case
(including `max_reason_items ≤ 0`, which empties both lists) reports
`truncated` and produces the single `max_reason_items_exceeded` error string,
which the error assembly of `evaluate_mybatis_difficulty` appends exactly
once. -/
theorem c10_apply_max_items (F R : Type) (factors : List F)
    (recommendations : List R) (m : Int) (subErrors : List String) :
    (m ≤ 0 →
      apply_max_items factors recommendations m =
        ([], [], true, some mybatisTruncationMsg)) ∧
    (0 < m → (factors.length + recommendations.length : Int) ≤ m →
      apply_max_items factors recommendations m =
        (factors, recommendations, false, none)) ∧
    (0 < m → m < (factors.length + recommendations.length : Int) →
      m ≤ (factors.length : Int) →
      apply_max_items factors recommendations m =
        (factors.take m.toNat, [], true, some mybatisTruncationMsg)) ∧
    (0 < m → m < (factors.length + recommendations.length : Int) →
      (factors.length : Int) < m →
      apply_max_items factors recommendations m =
        (factors, recommendations.take (m.toNat - factors.length), true,
          some mybatisTruncationMsg)) ∧
    (mybatisTruncationMsg ∉ subErrors →
      (mybatis_errors subErrors (some mybatisTruncationMsg)).count
        mybatisTruncationMsg = 1) := by
  refine ⟨fun h1 => ?_, fun h1 h2 => ?_, fun h1 h2 h3 => ?_, fun h1 h2 h3 => ?_,
    fun h => ?_⟩
  · unfold apply_max_items
    rw [if_pos h1]
  · unfold apply_max_items
    rw [if_neg (by omega), if_pos h2]
  · unfold apply_max_items
    rw [if_neg (by omega), if_neg (by omega), if_pos (by omega)]
  · unfold apply_max_items
    rw [if_neg (by omega), if_neg (by omega), if_neg (by omega)]
  · have hmem : mybatisTruncationMsg ∉ sorted_unique subErrors := by
      intro hmem
      unfold sorted_unique at hmem
      have h1 := (List.perm_insertionSort (α := String) strLe _).mem_iff.mp hmem
      rw [List.mem_dedup, List.mem_filter] at h1
      exact h (h1.1)
    unfold mybatis_errors
    rw [List.count_append]
    rw [List.count_eq_zero_of_not_mem hmem]
    simp

/-- C10 (witness for `c10_apply_max_items`): hypotheses discharged at a
concrete truncating call (3 factors, 2 recommendations, cap 4). -/
theorem c10_apply_max_items_witness :
    apply_max_items ["a", "b", "c"] ["r1", "r2"] 4 =
      (["a", "b", "c"], ["r1"], true, some mybatisTruncationMsg) ∧
    (mybatis_errors ["parse_error: x"] (some mybatisTruncationMsg)).count
      mybatisTruncationMsg = 1 := by
  have h := c10_apply_max_items String String ["a", "b", "c"] ["r1", "r2"] 4
    ["parse_error: x"]
  refine ⟨?_, h.2.2.2.2 (by decide)⟩
  have := h.2.2.2.1 (by decide) (by decide) (by decide)
  simpa using this

/-! ## C6 -/

theorem ite_sub_right (c : Prop) [Decidable c] (x k : Int) :
    (if c then x - k else x) = x - (if c then k else 0) := by
  split_ifs <;> omega

theorem ite_add_right (c : Prop) [Decidable c] (x k : Int) :
    (if c then x + k else x) = x + (if c then k else 0) := by
  split_ifs <;> omega

theorem reusability_grade_spec (x : Int) :
    (reusability_grade x = "A" ↔ 80 ≤ x) ∧
    (reusability_grade x = "B" ↔ 65 ≤ x ∧ x < 80) ∧
    (reusability_grade x = "C" ↔ 50 ≤ x ∧ x < 65) ∧
    (reusability_grade x = "D" ↔ x < 50) := by
  unfold reusability_grade
  split_ifs with h1 h2 h3 <;>
    refine ⟨⟨fun hg => ?_, fun hx => ?_⟩, ⟨fun hg => ?_, fun hx => ?_⟩,
      ⟨fun hg => ?_, fun hx => ?_⟩, ⟨fun hg => ?_, fun hx => ?_⟩⟩ <;>
    first
      | rfl
      | omega
      | exact absurd hg (by decide)

/-- C6: the reusability score equals 100 minus the eight penalties of the
claim plus the conditional +5 bonus, clamped to 0..100; the grade thresholds
are `A ≥ 80`, `B` on `[65, 80)`, `C` on `[50, 65)`, `D` below, and
`is_candidate` holds exactly when the score is at least 65. -/
theorem c6_reusability_scoring (s : ReusabilitySignals) :
    ((evaluate_reusability_summary s).score = reusabilitySpecScore s) ∧
    ((evaluate_reusability_summary s).grade = "A" ↔
      80 ≤ (evaluate_reusability_summary s).score) ∧
    ((evaluate_reusability_summary s).grade = "B" ↔
      65 ≤ (evaluate_reusability_summary s).score ∧
        (evaluate_reusability_summary s).score < 80) ∧
    ((evaluate_reusability_summary s).grade = "C" ↔
      50 ≤ (evaluate_reusability_summary s).score ∧
        (evaluate_reusability_summary s).score < 65) ∧
    ((evaluate_reusability_summary s).grade = "D" ↔
      (evaluate_reusability_summary s).score < 50) ∧
    ((evaluate_reusability_summary s).is_candidate = true ↔
      65 ≤ (evaluate_reusability_summary s).score) := by
  have hscore : (evaluate_reusability_summary s).score = reusabilitySpecScore s := by
    simp only [evaluate_reusability_summary, reusabilitySpecScore, ite_sub_right,
      ite_add_right]
  have hgrade : (evaluate_reusability_summary s).grade =
      reusability_grade (evaluate_reusability_summary s).score := rfl
  have hcand : (evaluate_reusability_summary s).is_candidate =
      decide (65 ≤ (evaluate_reusability_summary s).score) := rfl
  have hg := reusability_grade_spec (evaluate_reusability_summary s).score
  refine ⟨hscore, ?_, ?_, ?_, ?_, ?_⟩
  · rw [hgrade]; exact hg.1
  · rw [hgrade]; exact hg.2.1
  · rw [hgrade]; exact hg.2.2.1
  · rw [hgrade]; exact hg.2.2.2
  · rw [hcand]; exact decide_eq_true_iff

/-! ## C1 -/

/-- C1 (counterexample): the claim states that the transaction detection
patterns never fire on content inside comments or string literals.  On the
input `"-- BEGIN TRAN"` the only transaction token sits inside a line
comment — blanking comments and strings leaves no match for any of the six
detection patterns — yet `analyze_transactions` reports `begin_count = 1` and
`uses_transaction = true`, because it matches the original SQL. -/
theorem c1_comment_counterexample :
    (countMatches mBeginTran (strip_comments_and_strings "-- BEGIN TRAN") = 0 ∧
      countMatches mCommit (strip_comments_and_strings "-- BEGIN TRAN") = 0 ∧
      countMatches mRollback (strip_comments_and_strings "-- BEGIN TRAN") = 0 ∧
      countMatches mSaveTran (strip_comments_and_strings "-- BEGIN TRAN") = 0 ∧
      allCaptures mXactAbort (strip_comments_and_strings "-- BEGIN TRAN") = [] ∧
      allCaptures mIsolation (strip_comments_and_strings "-- BEGIN TRAN") = []) ∧
    (analyze_transactions "-- BEGIN TRAN").begin_count = 1 ∧
    (analyze_transactions "-- BEGIN TRAN").uses_transaction = true := by decide

/-- C1 (amended): `analyze_transactions` evaluates its detection patterns on
the original SQL, with no comment stripping or string masking, so tokens
inside `--`/`/*...*/` comments and single-quoted literals are counted like
any others: each reported count equals the raw pattern-match count over the
input, the `XACT_ABORT`/isolation captures are last-wins over the raw input,
and the zero report (`uses_transaction = false`) holds exactly when the raw
input has no begin/commit/rollback/save matches at all. -/
theorem c1_counts_over_original_sql (sql : String) :
    (analyze_transactions sql).begin_count = countMatches mBeginTran sql ∧
    (analyze_transactions sql).commit_count = countMatches mCommit sql ∧
    (analyze_transactions sql).rollback_count = countMatches mRollback sql ∧
    (analyze_transactions sql).savepoint_count = countMatches mSaveTran sql ∧
    (analyze_transactions sql).xact_abort = (allCaptures mXactAbort sql).getLast? ∧
    (analyze_transactions sql).isolation_level =
      (allCaptures mIsolation sql).getLast? ∧
    ((analyze_transactions sql).uses_transaction = false ↔
      countMatches mBeginTran sql = 0 ∧ countMatches mCommit sql = 0 ∧
        countMatches mRollback sql = 0 ∧ countMatches mSaveTran sql = 0) := by
  refine ⟨rfl, rfl, rfl, rfl, rfl, rfl, ?_⟩
  show (decide _ || decide _ || decide _ || decide _) = false ↔ _
  simp [and_assoc]

/-! ## C9 -/

theorem mem_ite_cons (x s : String) (b : Bool) (rest : List String) :
    x ∈ (if b then [s] else []) ++ rest ↔ (b = true ∧ x = s) ∨ x ∈ rest := by
  cases b <;> simp

/-- C9: the error-handling analysis (modelled from the spec; the function's
definition is missing from the provided sources) reports coherent boolean and
count fields for BEGIN TRY/BEGIN CATCH, THROW, RAISERROR, `@@ERROR`, PRINT
and RETURN, error functions drawn from the fixed six-name catalog, declared
OUTPUT parameters matching the error-like pattern, and a signals list
mirroring the booleans. -/
theorem c9_error_handling_shape (sql : String) :
    ((analyze_error_handling sql).has_try_catch = true ↔
      (analyze_error_handling sql).try_count ≠ 0 ∧
        (analyze_error_handling sql).catch_count ≠ 0) ∧
    ((analyze_error_handling sql).uses_throw = true ↔
      (analyze_error_handling sql).throw_count ≠ 0) ∧
    ((analyze_error_handling sql).uses_raiserror = true ↔
      (analyze_error_handling sql).raiserror_count ≠ 0) ∧
    ((analyze_error_handling sql).uses_at_at_error = true ↔
      (analyze_error_handling sql).at_at_error_count ≠ 0) ∧
    ((analyze_error_handling sql).uses_print = true ↔
      (analyze_error_handling sql).print_count ≠ 0) ∧
    ((analyze_error_handling sql).uses_return = true ↔
      (analyze_error_handling sql).return_count ≠ 0) ∧
    (∀ f ∈ (analyze_error_handling sql).uses_error_functions,
      f ∈ errorFunctionNames) ∧
    (∀ p ∈ (analyze_error_handling sql).output_error_params,
      errorLikeName p = true) ∧
    ((analyze_error_handling sql).uses_output_error_params = true ↔
      (analyze_error_handling sql).output_error_params ≠ []) ∧
    ("TRY/CATCH" ∈ (analyze_error_handling sql).signals ↔
      (analyze_error_handling sql).has_try_catch = true) ∧
    ("THROW" ∈ (analyze_error_handling sql).signals ↔
      (analyze_error_handling sql).uses_throw = true) ∧
    ("RAISERROR" ∈ (analyze_error_handling sql).signals ↔
      (analyze_error_handling sql).uses_raiserror = true) ∧
    ("@@ERROR" ∈ (analyze_error_handling sql).signals ↔
      (analyze_error_handling sql).uses_at_at_error = true) ∧
    ("PRINT" ∈ (analyze_error_handling sql).signals ↔
      (analyze_error_handling sql).uses_print = true) ∧
    ("RETURN" ∈ (analyze_error_handling sql).signals ↔
      (analyze_error_handling sql).uses_return = true) ∧
    (∀ f ∈ (analyze_error_handling sql).uses_error_functions,
      f ∈ (analyze_error_handling sql).signals) := by
  refine ⟨?_, ?_, ?_, ?_, ?_, ?_, ?_, ?_, ?_, ?_, ?_, ?_, ?_, ?_, ?_, ?_⟩
  · simp [analyze_error_handling]
  · simp [analyze_error_handling]
  · simp [analyze_error_handling]
  · simp [analyze_error_handling]
  · simp [analyze_error_handling]
  · simp [analyze_error_handling]
  · intro f hf
    simp only [analyze_error_handling] at hf
    exact List.mem_of_mem_filter hf
  · intro p hp
    simp only [analyze_error_handling] at hp
    exact (List.mem_filter.mp (List.mem_dedup.mp hp)).2
  · simp [analyze_error_handling]
  · simp [analyze_error_handling, mem_ite_cons, List.mem_append, List.mem_filter,
      errorFunctionNames]
  · simp [analyze_error_handling, mem_ite_cons, List.mem_append, List.mem_filter,
      errorFunctionNames]
  · simp [analyze_error_handling, mem_ite_cons, List.mem_append, List.mem_filter,
      errorFunctionNames]
  · simp [analyze_error_handling, mem_ite_cons, List.mem_append, List.mem_filter,
      errorFunctionNames]
  · simp [analyze_error_handling, mem_ite_cons, List.mem_append, List.mem_filter,
      errorFunctionNames]
  · simp [analyze_error_handling, mem_ite_cons, List.mem_append, List.mem_filter,
      errorFunctionNames]
  · intro f hf
    simp only [analyze_error_handling] at hf ⊢
    simp only [List.mem_append]
    tauto

/-! ## C2: structure of the blanked regions -/

theorem findBlockEnd_decomp : ∀ (l r : List Char), findBlockEnd l = some r →
    ∃ pre, l = pre ++ '*' :: '/' :: r := by
  intro l
  induction l with
  | nil => intro r h; simp [findBlockEnd] at h
  | cons c cs ih =>
    intro r h
    cases cs with
    | nil => simp [findBlockEnd] at h
    | cons d rest =>
      simp only [findBlockEnd] at h
      split_ifs at h with hcd
      · cases h
        exact ⟨[], by simp [hcd.1, hcd.2]⟩
      · obtain ⟨pre, hpre⟩ := ih r h
        exact ⟨c :: pre, by simp [hpre]⟩

theorem stepBlock_some {l r : List Char} (h : stepBlock l = some r) :
    ∃ body, l = '/' :: '*' :: body ∧ findBlockEnd body = some r := by
  match l with
  | [] => simp [stepBlock] at h
  | [c] => simp [stepBlock] at h
  | c :: d :: rest =>
    simp only [stepBlock] at h
    split_ifs at h with hcd
    exact ⟨rest, by simp [hcd.1, hcd.2], h⟩

theorem stepLine_some {l r : List Char} (h : stepLine l = some r) :
    ∃ body, l = '-' :: '-' :: body ∧ r = body.dropWhile (fun c => c ≠ '\n') := by
  match l with
  | [] => simp [stepLine] at h
  | [c] => simp [stepLine] at h
  | c :: d :: rest =>
    simp only [stepLine] at h
    split_ifs at h with hcd
    cases h
    exact ⟨rest, by simp [hcd.1, hcd.2], rfl⟩

theorem stringBody_decomp_fuel : ∀ (n : Nat) (l r : List Char), l.length ≤ n →
    stringBody l = some r → ∃ pre, l = pre ++ '\'' :: r := by
  intro n
  induction n with
  | zero =>
    intro l r hl h
    have : l = [] := by cases l <;> simp_all
    subst this
    simp [stringBody] at h
  | succ n ih =>
    intro l r hl h
    match l with
    | [] => simp [stringBody] at h
    | [c] =>
      simp only [stringBody] at h
      split_ifs at h with hc
      · cases h
        exact ⟨[], by simp [hc]⟩
    | c :: d :: rest =>
      simp only [stringBody] at h
      split_ifs at h with hc hd
      · rcases hsb : stringBody rest with _ | r'
        · rw [hsb] at h
          cases h
          exact ⟨[], by simp [hc]⟩
        · rw [hsb] at h
          cases h
          obtain ⟨pre, hpre⟩ := ih rest r (by simp at hl; omega) hsb
          exact ⟨c :: d :: pre, by simp [hpre, hd]⟩
      · cases h
        exact ⟨[], by simp [hc]⟩
      · obtain ⟨pre, hpre⟩ := ih (d :: rest) r (by simp at hl ⊢; omega) h
        exact ⟨c :: pre, by simp [hpre]⟩

theorem stringBody_decomp {l r : List Char} (h : stringBody l = some r) :
    ∃ pre, l = pre ++ '\'' :: r :=
  stringBody_decomp_fuel l.length l r le_rfl h

theorem stepString_some {l r : List Char} (h : stepString l = some r) :
    ∃ pre, pre ≠ [] ∧ l = pre ++ '\'' :: r := by
  match l with
  | [] => simp [stepString] at h
  | [c] =>
    simp only [stepString] at h
    split_ifs at h with hc
    · simp [stringBody] at h
  | c :: d :: rest =>
    simp only [stepString] at h
    split_ifs at h with hnd hc
    · obtain ⟨pre, hpre⟩ := stringBody_decomp h
      exact ⟨c :: d :: pre, by simp, by simp [hpre]⟩
    · obtain ⟨pre, hpre⟩ := stringBody_decomp h
      exact ⟨c :: pre, by simp, by simp [hpre]⟩

/-- A suffix decomposition gives a filter sublist. -/
theorem filter_sublist_of_append {p : Char → Bool} {l pre post : List Char}
    (h : l = pre ++ post) : List.Sublist (post.filter p) (l.filter p) := by
  subst h
  rw [List.filter_append]
  exact List.sublist_append_right _ _

/-! Stage 1 (`/*...*/` → one space). -/

theorem stripBlockGo_filter (p : Char → Bool) (hp : p ' ' = false) :
    ∀ (fuel : Nat) (l : List Char), l.length ≤ fuel →
      List.Sublist ((stripBlockGo fuel l).filter p) (l.filter p) := by
  intro fuel
  induction fuel with
  | zero =>
    intro l hl
    have : l = [] := by cases l <;> simp_all
    subst this
    simp [stripBlockGo]
  | succ fuel ih =>
    intro l hl
    match l with
    | [] => simp [stripBlockGo]
    | c :: rest =>
      simp only [stripBlockGo]
      rcases hsb : stepBlock (c :: rest) with _ | rest'
      · have hrec := ih rest (by simp at hl; omega)
        by_cases hpc : p c
        · simpa [List.filter_cons, hpc] using hrec.cons₂ c
        · simpa [List.filter_cons, hpc] using hrec
      · obtain ⟨body, hbody, hfind⟩ := stepBlock_some hsb
        obtain ⟨pre, hpre⟩ := findBlockEnd_decomp _ _ hfind
        have hlen : rest'.length ≤ fuel := by
          have h1 : (c :: rest).length = 2 + body.length := by rw [hbody]; simp; omega
          have h2 : body.length = pre.length + 2 + rest'.length := by
            rw [hpre]; simp; omega
          simp at h1 hl
          omega
        have hsub : List.Sublist ((stripBlockGo fuel rest').filter p)
            ((c :: rest).filter p) := by
          refine (ih rest' hlen).trans
            (@filter_sublist_of_append p (c :: rest)
              ('/' :: '*' :: pre ++ ['*', '/']) rest' ?_)
          rw [hbody, hpre]
          simp
        simpa [List.filter_cons, hp] using hsub

theorem stripBlockGo_length :
    ∀ (fuel : Nat) (l : List Char), l.length ≤ fuel →
      (stripBlockGo fuel l).length ≤ l.length := by
  intro fuel
  induction fuel with
  | zero => intro l _; simp [stripBlockGo]
  | succ fuel ih =>
    intro l hl
    match l with
    | [] => simp [stripBlockGo]
    | c :: rest =>
      simp only [stripBlockGo]
      rcases hsb : stepBlock (c :: rest) with _ | rest'
      · simp only [List.length_cons]
        have := ih rest (by simp at hl; omega)
        omega
      · simp only [List.length_cons]
        obtain ⟨body, hbody, hfind⟩ := stepBlock_some hsb
        obtain ⟨pre, hpre⟩ := findBlockEnd_decomp _ _ hfind
        have h1 : (c :: rest).length = 2 + body.length := by rw [hbody]; simp; omega
        have h2 : body.length = pre.length + 2 + rest'.length := by
          rw [hpre]; simp; omega
        have hlen : rest'.length ≤ fuel := by simp at h1 hl; omega
        have := ih rest' hlen
        simp at h1
        omega

theorem hasPair_tail {a b c : Char} {rest : List Char}
    (h : hasPair a b (c :: rest) = false) : hasPair a b rest = false := by
  cases rest with
  | nil => simp [hasPair]
  | cons d t =>
    simp only [hasPair, Bool.or_eq_false_iff] at h
    exact h.2

theorem stepBlock_none {l : List Char} (h : hasPair '/' '*' l = false) :
    stepBlock l = none := by
  match l with
  | [] => simp [stepBlock]
  | [c] => simp [stepBlock]
  | c :: d :: rest =>
    simp only [hasPair, Bool.or_eq_false_iff] at h
    simp only [stepBlock]
    rw [if_neg]
    intro ⟨h1, h2⟩
    subst h1; subst h2
    simp at h

theorem stripBlockGo_id :
    ∀ (fuel : Nat) (l : List Char), hasPair '/' '*' l = false →
      stripBlockGo fuel l = l := by
  intro fuel
  induction fuel with
  | zero => intro l _; rfl
  | succ fuel ih =>
    intro l hl
    match l with
    | [] => rfl
    | c :: rest =>
      simp only [stripBlockGo, stepBlock_none hl]
      rw [ih rest (hasPair_tail hl)]

/-! Stage 2 (`--...$` → one space). -/

theorem stripLineGo_filter (p : Char → Bool) (hp : p ' ' = false) :
    ∀ (fuel : Nat) (l : List Char), l.length ≤ fuel →
      List.Sublist ((stripLineGo fuel l).filter p) (l.filter p) := by
  intro fuel
  induction fuel with
  | zero =>
    intro l hl
    have : l = [] := by cases l <;> simp_all
    subst this
    simp [stripLineGo]
  | succ fuel ih =>
    intro l hl
    match l with
    | [] => simp [stripLineGo]
    | c :: rest =>
      simp only [stripLineGo]
      rcases hsl : stepLine (c :: rest) with _ | rest'
      · have hrec := ih rest (by simp at hl; omega)
        by_cases hpc : p c
        · simpa [List.filter_cons, hpc] using hrec.cons₂ c
        · simpa [List.filter_cons, hpc] using hrec
      · obtain ⟨body, hbody, hdrop⟩ := stepLine_some hsl
        have hlen : rest'.length ≤ fuel := by
          have h1 : rest'.length ≤ body.length := by
            rw [hdrop]; exact ((List.dropWhile_suffix _).sublist).length_le
          have h2 : (c :: rest).length = 2 + body.length := by
            rw [hbody]; simp; omega
          simp at h2 hl
          omega
        have hsub : List.Sublist ((stripLineGo fuel rest').filter p)
            ((c :: rest).filter p) := by
          refine (ih rest' hlen).trans
            (@filter_sublist_of_append p (c :: rest)
              ('-' :: '-' :: body.takeWhile (fun c => c ≠ '\n')) rest' ?_)
          rw [hbody, hdrop]
          simp [List.takeWhile_append_dropWhile]
        simpa [List.filter_cons, hp] using hsub

theorem stripLineGo_length :
    ∀ (fuel : Nat) (l : List Char), l.length ≤ fuel →
      (stripLineGo fuel l).length ≤ l.length := by
  intro fuel
  induction fuel with
  | zero => intro l _; simp [stripLineGo]
  | succ fuel ih =>
    intro l hl
    match l with
    | [] => simp [stripLineGo]
    | c :: rest =>
      simp only [stripLineGo]
      rcases hsl : stepLine (c :: rest) with _ | rest'
      · simp only [List.length_cons]
        have := ih rest (by simp at hl; omega)
        omega
      · simp only [List.length_cons]
        obtain ⟨body, hbody, hdrop⟩ := stepLine_some hsl
        have h1 : rest'.length ≤ body.length := by
          rw [hdrop]; exact ((List.dropWhile_suffix _).sublist).length_le
        have h2 : (c :: rest).length = 2 + body.length := by
          rw [hbody]; simp; omega
        have hlen : rest'.length ≤ fuel := by simp at h2 hl; omega
        have := ih rest' hlen
        simp at h2
        omega

theorem stepLine_none {l : List Char} (h : hasPair '-' '-' l = false) :
    stepLine l = none := by
  match l with
  | [] => simp [stepLine]
  | [c] => simp [stepLine]
  | c :: d :: rest =>
    simp only [hasPair, Bool.or_eq_false_iff] at h
    simp only [stepLine]
    rw [if_neg]
    intro ⟨h1, h2⟩
    subst h1; subst h2
    simp at h

theorem stripLineGo_id :
    ∀ (fuel : Nat) (l : List Char), hasPair '-' '-' l = false →
      stripLineGo fuel l = l := by
  intro fuel
  induction fuel with
  | zero => intro l _; rfl
  | succ fuel ih =>
    intro l hl
    match l with
    | [] => rfl
    | c :: rest =>
      simp only [stripLineGo, stepLine_none hl]
      rw [ih rest (hasPair_tail hl)]

/-! Stage 3 (string literals → `''`). -/

theorem stripStringsGo_filter (p : Char → Bool) (hp : p '\'' = false) :
    ∀ (fuel : Nat) (l : List Char), l.length ≤ fuel →
      List.Sublist ((stripStringsGo fuel l).filter p) (l.filter p) := by
  intro fuel
  induction fuel with
  | zero =>
    intro l hl
    have : l = [] := by cases l <;> simp_all
    subst this
    simp [stripStringsGo]
  | succ fuel ih =>
    intro l hl
    match l with
    | [] => simp [stripStringsGo]
    | c :: rest =>
      simp only [stripStringsGo]
      rcases hss : stepString (c :: rest) with _ | rest'
      · have hrec := ih rest (by simp at hl; omega)
        by_cases hpc : p c
        · simpa [List.filter_cons, hpc] using hrec.cons₂ c
        · simpa [List.filter_cons, hpc] using hrec
      · obtain ⟨pre, hne, hpre⟩ := stepString_some hss
        have hlen : rest'.length ≤ fuel := by
          have h1 : (c :: rest).length = pre.length + 1 + rest'.length := by
            rw [hpre]; simp; omega
          have h2 : 1 ≤ pre.length := by
            cases pre with
            | nil => exact absurd rfl hne
            | cons _ _ => simp
          simp at h1 hl
          omega
        have hsub : List.Sublist ((stripStringsGo fuel rest').filter p)
            ((c :: rest).filter p) := by
          refine (ih rest' hlen).trans
            (@filter_sublist_of_append p (c :: rest)
              (pre ++ ['\'']) rest' ?_)
          rw [hpre]
          simp
        simpa [List.filter_cons, hp] using hsub

theorem stripStringsGo_length :
    ∀ (fuel : Nat) (l : List Char), l.length ≤ fuel →
      (stripStringsGo fuel l).length ≤ l.length := by
  intro fuel
  induction fuel with
  | zero => intro l _; simp [stripStringsGo]
  | succ fuel ih =>
    intro l hl
    match l with
    | [] => simp [stripStringsGo]
    | c :: rest =>
      simp only [stripStringsGo]
      rcases hss : stepString (c :: rest) with _ | rest'
      · simp only [List.length_cons]
        have := ih rest (by simp at hl; omega)
        omega
      · simp only [List.length_cons]
        obtain ⟨pre, hne, hpre⟩ := stepString_some hss
        have h1 : (c :: rest).length = pre.length + 1 + rest'.length := by
          rw [hpre]; simp; omega
        have h2 : 1 ≤ pre.length := by
          cases pre with
          | nil => exact absurd rfl hne
          | cons _ _ => simp
        have hlen : rest'.length ≤ fuel := by simp at h1 hl; omega
        have := ih rest' hlen
        simp at h1
        omega

theorem stepString_none {l : List Char} (h : '\'' ∉ l) : stepString l = none := by
  match l with
  | [] => simp [stepString]
  | [c] =>
    simp only [stepString]
    rw [if_neg]
    intro hc
    subst hc
    simp at h
  | c :: d :: rest =>
    simp only [stepString]
    rw [if_neg, if_neg]
    · intro hc
      subst hc
      simp at h
    · intro ⟨h1, h2⟩
      subst h2
      simp at h

theorem stripStringsGo_id :
    ∀ (fuel : Nat) (l : List Char), '\'' ∉ l → stripStringsGo fuel l = l := by
  intro fuel
  induction fuel with
  | zero => intro l _; rfl
  | succ fuel ih =>
    intro l hl
    match l with
    | [] => rfl
    | c :: rest =>
      simp only [stripStringsGo, stepString_none hl]
      rw [ih rest (fun hm => hl (List.mem_cons_of_mem c hm))]

theorem data_asString (l : List Char) : (l.asString).data = l := rfl

/-- C2 (counterexample): the claim states that every surviving character
occupies the same position in the output as in the input.  On `"/*ab*/X"` the
block comment (6 characters) is replaced by a single space, so the surviving
identifier `X` moves from index 6 to index 1 and the output is shorter than
the input. -/
theorem c2_position_counterexample :
    strip_comments_and_strings "/*ab*/X" = " X" ∧
    "/*ab*/X".data[6]? = some 'X' ∧
    (strip_comments_and_strings "/*ab*/X").data[6]? = none ∧
    (strip_comments_and_strings "/*ab*/X").length ≠ "/*ab*/X".length := by decide

/-- C2 (amended): `strip_comments_and_strings` never truncates or reorders
the characters that survive blanking — every non-space, non-quote character
of the output originates from the input in order (each block/line comment is
replaced by one space and each string literal by `''`, so only spaces and
quotes can be synthesized) — and the output is never longer than the input;
but absolute positions are not preserved in general: each blanked region
collapses to a fixed-width replacement, and the output equals the input
(position preservation included) when no comment opener and no quote occurs
in the input. -/
theorem c2_strip_structure (sql : String) :
    List.Sublist ((strip_comments_and_strings sql).data.filter keepChar)
      (sql.data.filter keepChar) ∧
    (strip_comments_and_strings sql).length ≤ sql.length ∧
    (hasPair '/' '*' sql.data = false → hasPair '-' '-' sql.data = false →
      '\'' ∉ sql.data → strip_comments_and_strings sql = sql) := by
  refine ⟨?_, ?_, ?_⟩
  · show List.Sublist
      ((stripStrings (stripLine (stripBlock sql.data))).filter keepChar) _
    have h3 := stripStringsGo_filter keepChar (by decide)
      (stripLine (stripBlock sql.data)).length
      (stripLine (stripBlock sql.data)) le_rfl
    have h2 := stripLineGo_filter keepChar (by decide)
      (stripBlock sql.data).length (stripBlock sql.data) le_rfl
    have h1 := stripBlockGo_filter keepChar (by decide)
      sql.data.length sql.data le_rfl
    exact h3.trans (h2.trans h1)
  · show (stripStrings (stripLine (stripBlock sql.data))).length ≤
      sql.data.length
    have h3 : (stripStrings (stripLine (stripBlock sql.data))).length ≤
        (stripLine (stripBlock sql.data)).length :=
      stripStringsGo_length _ _ le_rfl
    have h2 : (stripLine (stripBlock sql.data)).length ≤
        (stripBlock sql.data).length :=
      stripLineGo_length _ _ le_rfl
    have h1 : (stripBlock sql.data).length ≤ sql.data.length :=
      stripBlockGo_length _ _ le_rfl
    omega
  · intro hb hl hq
    unfold strip_comments_and_strings stripBlock stripLine stripStrings
    rw [stripBlockGo_id _ _ hb, stripLineGo_id _ _ hl, stripStringsGo_id _ _ hq]
    cases sql
    rfl

/-- C2 (witness for `c2_strip_structure`): the identity hypotheses discharged
at `"SELECT 1"`. -/
theorem c2_strip_structure_witness :
    strip_comments_and_strings "SELECT 1" = "SELECT 1" :=
  (c2_strip_structure "SELECT 1").2.2 (by decide) (by decide) (by decide)

/-! ## C7 -/

theorem resolve_target_preserves (ci ss : Bool) (nodes : List CgNode)
    (bi : List (String × List String)) (ot cn nm : String) (st : ResolveState)
    (he : st.errors = st.ambiguous.map mkAmbiguousError)
    (hn : st.ambiguous.Nodup) :
    (resolve_target ci ss nodes bi ot cn nm st).2.errors =
      (resolve_target ci ss nodes bi ot cn nm st).2.ambiguous.map
        mkAmbiguousError ∧
    (resolve_target ci ss nodes bi ot cn nm st).2.ambiguous.Nodup := by
  simp only [resolve_target]
  split_ifs <;> try exact ⟨he, hn⟩
  all_goals split <;> try exact ⟨he, hn⟩
  all_goals refine ⟨by simp [he], ?_⟩
  all_goals simp_all [List.nodup_append]

theorem resolve_calls_inv (ci ss : Bool) (nodes : List CgNode)
    (bi : List (String × List String)) (cn : String) :
    ∀ (calls : List CgCall) (st : ResolveState),
      st.errors = st.ambiguous.map mkAmbiguousError → st.ambiguous.Nodup →
      ((resolve_calls ci ss nodes bi cn calls st).2.errors =
        (resolve_calls ci ss nodes bi cn calls st).2.ambiguous.map
          mkAmbiguousError ∧
       (resolve_calls ci ss nodes bi cn calls st).2.ambiguous.Nodup) := by
  intro calls
  induction calls with
  | nil => intro st he hn; exact ⟨he, hn⟩
  | cons c cs ih =>
    intro st he hn
    simp only [resolve_calls]
    have hstep := resolve_target_preserves ci ss nodes bi c.objectType cn
      c.name st he hn
    exact ih _ hstep.1 hstep.2

/-- C7 (counterexample): the claim states that every call whose base name
matches multiple distinct typed nodes records no edge and yields an
`AMBIGUOUS_TARGET` error.  With nodes `dbo.usp_x` and `s2.usp_x` (both
procedures), the schema-qualified call `EXEC dbo.usp_X` has a base name
matching two distinct procedure nodes, yet `_resolve_target` resolves it by
exact match — an edge is recorded and no error is emitted. -/
theorem c7_exact_match_counterexample :
    (((indexGet (base_name_index ["dbo.usp_x", "s2.usp_x"]) "usp_x").filter
      (isTargetType
        [⟨"dbo.usp_x", "dbo.usp_X", "procedure"⟩,
         ⟨"s2.usp_x", "s2.usp_X", "procedure"⟩] "procedure")).length = 2) ∧
    (resolve_target true false
      [⟨"dbo.usp_x", "dbo.usp_X", "procedure"⟩,
       ⟨"s2.usp_x", "s2.usp_X", "procedure"⟩]
      (base_name_index ["dbo.usp_x", "s2.usp_x"]) "procedure" "dbo.usp_A"
      "dbo.usp_X" ⟨[], []⟩).1 = some "dbo.usp_x" ∧
    (resolve_target true false
      [⟨"dbo.usp_x", "dbo.usp_X", "procedure"⟩,
       ⟨"s2.usp_x", "s2.usp_X", "procedure"⟩]
      (base_name_index ["dbo.usp_x", "s2.usp_x"]) "procedure" "dbo.usp_A"
      "dbo.usp_X" ⟨[], []⟩).2.errors = [] := by decide

/-- C7 (amended): with `schema_sensitive = false`, for every call that does
not resolve by exact fully-qualified match (in particular every unqualified
call) whose base name matches at least two distinct nodes of the matching
object type, `_resolve_target` returns no target (so no edge is recorded), the
`(caller, base-name)` key is recorded, the `AMBIGUOUS_TARGET` error is emitted
exactly when the key is new; and over any sequence of calls the errors list
contains exactly one `AMBIGUOUS_TARGET` entry per distinct recorded
`(caller, base-name)` pair. -/
theorem c7_ambiguous_target (ci : Bool) (nodes : List CgNode)
    (bi : List (String × List String)) (ot cn nm : String) (st : ResolveState)
    (calls : List CgCall)
    (hex : ((split_identifier false (normalize_full_name ci nm)).1.isSome &&
        (nodes.any (fun n => n.id = normalize_full_name ci nm)) &&
        isTargetType nodes ot (normalize_full_name ci nm)) = false)
    (hcand : 2 ≤ ((indexGet bi
        (split_identifier false (normalize_full_name ci nm)).2).filter
        (isTargetType nodes ot)).length) :
    ((resolve_target ci false nodes bi ot cn nm st).1 = none ∧
     (cn, (split_identifier false (normalize_full_name ci nm)).2) ∈
       (resolve_target ci false nodes bi ot cn nm st).2.ambiguous ∧
     ((cn, (split_identifier false (normalize_full_name ci nm)).2) ∉ st.ambiguous →
       (resolve_target ci false nodes bi ot cn nm st).2.errors =
         st.errors ++ [mkAmbiguousError
           (cn, (split_identifier false (normalize_full_name ci nm)).2)]) ∧
     ((cn, (split_identifier false (normalize_full_name ci nm)).2) ∈ st.ambiguous →
       (resolve_target ci false nodes bi ot cn nm st).2.errors = st.errors)) ∧
    ((resolve_calls ci false nodes bi cn calls ⟨[], []⟩).2.errors =
       (resolve_calls ci false nodes bi cn calls ⟨[], []⟩).2.ambiguous.map
         mkAmbiguousError ∧
     (resolve_calls ci false nodes bi cn calls ⟨[], []⟩).2.ambiguous.Nodup) := by
  constructor
  · simp only [resolve_target, Bool.false_eq_true, if_false, hex]
    rcases hc : (indexGet bi
        (split_identifier false (normalize_full_name ci nm)).2).filter
        (isTargetType nodes ot) with _ | ⟨x, _ | ⟨y, t⟩⟩
    · rw [hc] at hcand; simp at hcand
    · rw [hc] at hcand; simp at hcand
    · simp only [hc]
      by_cases hmem : (cn, (split_identifier false (normalize_full_name ci nm)).2)
          ∈ st.ambiguous
      · have : st.ambiguous.contains
            (cn, (split_identifier false (normalize_full_name ci nm)).2) = true := by
          simpa using hmem
        simp [this, hmem]
      · have : st.ambiguous.contains
            (cn, (split_identifier false (normalize_full_name ci nm)).2) = false := by
          simpa using hmem
        simp [this, hmem]
  · exact resolve_calls_inv ci false nodes bi cn calls ⟨[], []⟩ rfl List.nodup_nil

/-- C7 (witness for `c7_ambiguous_target`): hypotheses discharged at the
unqualified call `EXEC usp_X` against the two-schema node set; the call
resolves to no edge and emits a single error for the pair even across two
identical calls. -/
theorem c7_ambiguous_target_witness :
    (resolve_target true false
      [⟨"dbo.usp_x", "dbo.usp_X", "procedure"⟩,
       ⟨"s2.usp_x", "s2.usp_X", "procedure"⟩]
      (base_name_index ["dbo.usp_x", "s2.usp_x"]) "procedure" "dbo.usp_A"
      "usp_X" ⟨[], []⟩).1 = none ∧
    (resolve_calls true false
      [⟨"dbo.usp_x", "dbo.usp_X", "procedure"⟩,
       ⟨"s2.usp_x", "s2.usp_X", "procedure"⟩]
      (base_name_index ["dbo.usp_x", "s2.usp_x"]) "dbo.usp_A"
      [⟨"usp_X", "procedure"⟩, ⟨"usp_X", "procedure"⟩] ⟨[], []⟩).2.errors =
      (resolve_calls true false
        [⟨"dbo.usp_x", "dbo.usp_X", "procedure"⟩,
         ⟨"s2.usp_x", "s2.usp_X", "procedure"⟩]
        (base_name_index ["dbo.usp_x", "s2.usp_x"]) "dbo.usp_A"
        [⟨"usp_X", "procedure"⟩, ⟨"usp_X", "procedure"⟩]
        ⟨[], []⟩).2.ambiguous.map mkAmbiguousError := by
  have h := c7_ambiguous_target true
    [⟨"dbo.usp_x", "dbo.usp_X", "procedure"⟩,
     ⟨"s2.usp_x", "s2.usp_X", "procedure"⟩]
    (base_name_index ["dbo.usp_x", "s2.usp_x"]) "procedure" "dbo.usp_A"
    "usp_X" ⟨[], []⟩ [⟨"usp_X", "procedure"⟩, ⟨"usp_X", "procedure"⟩]
    (by decide) (by decide)
  exact ⟨h.1.1, h.2.1⟩

/-! ## C8 -/

theorem lexLe_total : ∀ (a b : List Char), lexLe a b = true ∨ lexLe b a = true := by
  intro a
  induction a with
  | nil => intro b; left; cases b <;> rfl
  | cons x xs ih =>
    intro b
    cases b with
    | nil => right; rfl
    | cons y ys =>
      simp only [lexLe]
      by_cases hxy : x = y
      · subst hxy
        simpa using ih ys
      · have hyx : ¬ y = x := fun h => hxy h.symm
        simp only [hxy, hyx, if_false, decide_eq_true_eq]
        rcases lt_trichotomy x y with h | h | h
        · left; exact h
        · exact absurd h hxy
        · right; exact h

theorem lexLe_trans : ∀ (a b c : List Char), lexLe a b = true →
    lexLe b c = true → lexLe a c = true := by
  intro a
  induction a with
  | nil => intro b c _ _; cases c <;> rfl
  | cons x xs ih =>
    intro b c hab hbc
    cases b with
    | nil => simp [lexLe] at hab
    | cons y ys =>
      cases c with
      | nil => simp [lexLe] at hbc
      | cons z zs =>
        simp only [lexLe] at hab hbc ⊢
        by_cases hxy : x = y <;> by_cases hyz : y = z
        · subst hxy; subst hyz
          simp only [if_pos rfl] at hab hbc ⊢
          exact ih ys zs hab hbc
        · subst hxy
          simp only [if_pos rfl] at hab
          rw [if_neg hyz] at hbc ⊢
          exact hbc
        · subst hyz
          simp only [if_pos rfl] at hbc
          rw [if_neg hxy] at hab ⊢
          exact hab
        · rw [if_neg hxy, decide_eq_true_eq] at hab
          rw [if_neg hyz, decide_eq_true_eq] at hbc
          have hxz : x < z := lt_trans hab hbc
          rw [if_neg (ne_of_lt hxz), decide_eq_true_eq]
          exact hxz

theorem hitLE_total : ∀ (a b : Hit), hitLE a b ∨ hitLE b a := by
  intro a b
  unfold hitLE strLe
  rcases lt_trichotomy a.score b.score with h | h | h
  · right; left; exact h
  · rcases lexLe_total a.doc_id.data b.doc_id.data with hl | hl
    · left; right; exact ⟨h, hl⟩
    · right; right; exact ⟨h.symm, hl⟩
  · left; left; exact h

theorem hitLE_trans : ∀ (a b c : Hit), hitLE a b → hitLE b c → hitLE a c := by
  intro a b c hab hbc
  unfold hitLE strLe at *
  rcases hab with h1 | ⟨h1, h1'⟩ <;> rcases hbc with h2 | ⟨h2, h2'⟩
  · left; exact lt_trans h2 h1
  · left; rwa [h2] at h1
  · left; rwa [h1]
  · right; exact ⟨h1.trans h2, lexLe_trans _ _ _ h1' h2'⟩

theorem searchHits_mem (qw : List (String × ℚ)) (qn : ℚ) :
    ∀ (cs : List DocChunk) (vs : List (List (String × ℚ))) (ns : List ℚ)
      (h : Hit), h ∈ searchHits qw qn cs vs ns →
      ∃ c v n, ((c, v), n) ∈ (cs.zip vs).zip ns ∧ ¬ n = 0 ∧ 0 < dotQ qw v ∧
        h = { doc_id := c.doc_id, title := c.title, source := c.source,
              score := dotQ qw v / (qn * n), text := c.text } := by
  intro cs
  induction cs with
  | nil => intro vs ns h hm; simp [searchHits] at hm
  | cons c cs ih =>
    intro vs ns h hm
    cases vs with
    | nil => simp [searchHits] at hm
    | cons v vs =>
      cases ns with
      | nil => simp [searchHits] at hm
      | cons n ns =>
        simp only [searchHits] at hm
        split_ifs at hm with hn hd
        · obtain ⟨c', v', n', hmem, h0, hdot, heq⟩ := ih vs ns h hm
          exact ⟨c', v', n', List.mem_cons_of_mem _ hmem, h0, hdot, heq⟩
        · obtain ⟨c', v', n', hmem, h0, hdot, heq⟩ := ih vs ns h hm
          exact ⟨c', v', n', List.mem_cons_of_mem _ hmem, h0, hdot, heq⟩
        · rcases List.mem_cons.mp hm with heq | hm'
          · exact ⟨c, v, n, List.mem_cons_self _ _, hn, lt_of_not_le hd, heq⟩
          · obtain ⟨c', v', n', hmem, h0, hdot, heq⟩ := ih vs ns h hm'
            exact ⟨c', v', n', List.mem_cons_of_mem _ hmem, h0, hdot, heq⟩

/-- C8: `search` returns at most `top_k` hits (with negative `top_k` clamped
to zero as in the code), the hit list is sorted by `(-score, doc_id)`, every
returned hit comes from a chunk with non-zero norm whose query-document dot
product is strictly positive and is scored `dot / (query_norm * norm)`
(cosine similarity), and the index built by `build_index` carries
`idf = log((N+1)/(df+1)) + 1` and per-chunk weights `(1 + log(tf)) * idf`.
All of this holds for every behaviour of the external `math.log` /
`math.sqrt`, hence in particular for the real ones. -/
theorem c8_search_properties (log sqrt : ℚ → ℚ) (chunks : List DocChunk)
    (ci : Bool) (query : String) (top_k : Int) :
    ((search log sqrt (build_index log sqrt chunks ci) query top_k).length ≤
      (max top_k 0).toNat) ∧
    List.Sorted hitLE
      (search log sqrt (build_index log sqrt chunks ci) query top_k) ∧
    (∀ h ∈ search log sqrt (build_index log sqrt chunks ci) query top_k,
      ∃ c v n,
        ((c, v), n) ∈
          (((build_index log sqrt chunks ci).chunks.zip
            (build_index log sqrt chunks ci).vectors).zip
            (build_index log sqrt chunks ci).norms) ∧
        ¬ n = 0 ∧
        0 < dotQ (queryWeights log (build_index log sqrt chunks ci) query) v ∧
        h = { doc_id := c.doc_id, title := c.title, source := c.source,
              score := dotQ (queryWeights log (build_index log sqrt chunks ci)
                  query) v /
                (queryNorm log sqrt (build_index log sqrt chunks ci) query * n),
              text := c.text }) ∧
    (chunks ≠ [] → (build_index log sqrt chunks ci).idf = idfTable log ci chunks) ∧
    (∀ t w, (t, w) ∈ idfTable log ci chunks →
      ∃ d, (t, d) ∈ documentFrequencies ci chunks ∧
        w = log (((chunks.length : ℚ) + 1) / ((d : ℚ) + 1)) + 1) ∧
    (chunks ≠ [] → ∀ vec ∈ (build_index log sqrt chunks ci).vectors,
      ∃ toks ∈ chunkTokenLists ci chunks,
        vec = chunkVector log (idfTable log ci chunks) toks) := by
  haveI htotal : IsTotal Hit hitLE := ⟨hitLE_total⟩
  haveI htrans : IsTrans Hit hitLE := ⟨hitLE_trans⟩
  refine ⟨?_, ?_, ?_, ?_, ?_, ?_⟩
  · unfold search
    split_ifs <;> simp [List.length_take]
  · unfold search
    split_ifs <;> try exact List.sorted_nil
    exact List.Pairwise.sublist (List.take_sublist _ _)
      (List.sorted_insertionSort hitLE _)
  · unfold search
    split_ifs <;> intro h hm <;> try simp at hm
    have hm1 : h ∈ (searchHits
        (queryWeights log (build_index log sqrt chunks ci) query)
        (queryNorm log sqrt (build_index log sqrt chunks ci) query)
        (build_index log sqrt chunks ci).chunks
        (build_index log sqrt chunks ci).vectors
        (build_index log sqrt chunks ci).norms).insertionSort hitLE :=
      (List.take_sublist _ _).subset hm
    have hm2 := (List.perm_insertionSort hitLE _).mem_iff.mp hm1
    exact searchHits_mem _ _ _ _ _ h hm2
  · intro hne
    unfold build_index
    rw [if_neg hne]
  · intro t w hm
    unfold idfTable at hm
    obtain ⟨p, hp, heq⟩ := List.mem_map.mp hm
    obtain ⟨h1, h2⟩ := Prod.mk.injEq .. ▸ heq
    exact ⟨p.2, by rw [← h1]; simpa using hp, h2.symm⟩
  · intro hne vec hv
    unfold build_index at hv
    rw [if_neg hne] at hv
    simp only at hv
    obtain ⟨toks, ht, heq⟩ := List.mem_map.mp hv
    exact ⟨toks, ht, heq.symm⟩

/-- C8 (witness for `c8_search_properties`): evaluated at a one-chunk index
(`log := 0`, `sqrt := id`) and the query `"beta"`, whose single hit has
positive dot product and cosine score. -/
theorem c8_search_properties_witness :
    (search (fun _ => 0) (fun q => q)
      (build_index (fun _ => 0) (fun q => q)
        [⟨"doc_0001#chunk_0001", "T", "s", "alpha beta", 1⟩] true)
      "beta" 5).length ≤ (max (5 : Int) 0).toNat ∧
    (search (fun _ => 0) (fun q => q)
      (build_index (fun _ => 0) (fun q => q)
        [⟨"doc_0001#chunk_0001", "T", "s", "alpha beta", 1⟩] true)
      "beta" 5) =
      [⟨"doc_0001#chunk_0001", "T", "s", 1/2, "alpha beta"⟩] :=
  ⟨(c8_search_properties (fun _ => 0) (fun q => q)
      [⟨"doc_0001#chunk_0001", "T", "s", "alpha beta", 1⟩] true "beta" 5).1,
   by with_unfolding_all decide⟩

/-! ## C4 -/

theorem length_filter_add {α : Type} (p : α → Bool) (l : List α) :
    (l.filter p).length + (l.filter (fun a => !p a)).length = l.length := by
  induction l with
  | nil => rfl
  | cons a l ih =>
    by_cases h : p a <;> simp [List.filter_cons, h] <;> omega

mutual

/-- Once inside a `Merge` subtree the walk of `analyze_data_changes` never
collects an `Update` node: the `inMerge` flag is set at a `merge` node and is
never reset below it. -/
theorem astCollect_true_no_update : ∀ (a : SqlAst),
    (astCollect true a).filter (fun p => p.1 = WriteOp.update) = []
  | SqlAst.insert t cs => by
    simp [astCollect, List.filter_cons, astCollectList_true_no_update cs]
  | SqlAst.update t cs => by
    simp [astCollect, astCollectList_true_no_update cs]
  | SqlAst.delete t cs => by
    simp [astCollect, List.filter_cons, astCollectList_true_no_update cs]
  | SqlAst.merge t cs => by
    simp [astCollect, List.filter_cons, astCollectList_true_no_update cs]
  | SqlAst.selectInto t cs => by
    simp [astCollect, List.filter_cons, astCollectList_true_no_update cs]
  | SqlAst.node cs => by
    simp [astCollect, astCollectList_true_no_update cs]

theorem astCollectList_true_no_update : ∀ (cs : List SqlAst),
    (astCollectList true cs).filter (fun p => p.1 = WriteOp.update) = []
  | [] => by simp [astCollectList]
  | a :: rest => by
    simp [astCollectList, List.filter_append, astCollect_true_no_update a,
      astCollectList_true_no_update rest]

end

theorem astCollectList_append (inM : Bool) (xs ys : List SqlAst) :
    astCollectList inM (xs ++ ys) =
      astCollectList inM xs ++ astCollectList inM ys := by
  induction xs with
  | nil => simp [astCollectList]
  | cons a rest ih => simp [astCollectList, ih]

/-- C4: UPDATE/DELETE inside a MERGE context are attributed to the merge and
not counted separately, on both paths of `analyze_data_changes`.  AST path:
the update payload is unchanged by whatever stands below a `Merge` node (the
walk skips every `Update` with a `Merge` ancestor), and — under the
hypothesis that the merge's subtree holds no `Delete` node, which is how the
external parser represents MERGE statements (a `WHEN MATCHED THEN DELETE`
action is a plain `Var`, not a `Delete` node) — the delete payload is
likewise unchanged, while the merge node itself is counted in the merge
payload.  Fallback path: the UPDATE and DELETE match counts range exactly
over the `finditer` matches outside a merge context; every match whose
statement prefix contains `MERGE` is skipped.  Closed instances: the
realizable parse of a `MERGE ... WHEN MATCHED THEN DELETE` statement yields
delete count 0 and merge count 1, a textual `DELETE FROM`/`UPDATE` inside a
MERGE statement is skipped by the fallback (against a count of 1 for a
standalone `DELETE FROM`). -/
theorem c4_merge_attribution (pre post cs : List SqlAst) (t : Option String)
    (sql sql2 : String)
    (hdf : ∀ p ∈ astCollectList true cs, p.1 ≠ WriteOp.delete) :
    (analyze_data_changes (some (pre ++ SqlAst.merge t cs :: post)) sql).update =
      (analyze_data_changes (some (pre ++ SqlAst.merge t [] :: post)) sql).update ∧
    (analyze_data_changes (some (pre ++ SqlAst.merge t cs :: post)) sql).delete =
      (analyze_data_changes (some (pre ++ SqlAst.merge t [] :: post)) sql).delete ∧
    (analyze_data_changes (some (pre ++ SqlAst.merge t cs :: post)) sql).merge.count =
      (astOpAcc (astCollectAll (pre ++ SqlAst.merge t cs :: post)) WriteOp.merge).1 ∧
    0 < (analyze_data_changes (some (pre ++ SqlAst.merge t cs :: post)) sql).merge.count ∧
    ((allPositions (mWordsTable ["update"]) (strip_sql_comments sql2).data).filter
        (fun q => is_merge_context (strip_sql_comments sql2).data q.1)).length +
      (fallback_data_changes sql2).update.count =
      (allPositions (mWordsTable ["update"]) (strip_sql_comments sql2).data).length ∧
    ((allPositions (mWordsTable ["delete", "from"]) (strip_sql_comments sql2).data).filter
        (fun q => is_merge_context (strip_sql_comments sql2).data q.1)).length +
      ((allPositions mDeleteAlias (strip_sql_comments sql2).data).filter
        (fun q => is_merge_context (strip_sql_comments sql2).data q.1)).length +
      (fallback_data_changes sql2).delete.count =
      (allPositions (mWordsTable ["delete", "from"]) (strip_sql_comments sql2).data).length +
        (allPositions mDeleteAlias (strip_sql_comments sql2).data).length ∧
    analyze_data_changes (some [SqlAst.merge (some "dbo.T") [SqlAst.node []]])
      "MERGE INTO dbo.T USING dbo.S AS s ON t.Id = s.Id WHEN MATCHED THEN DELETE;" =
      { has_writes := true
        insert := { count := 0, tables := [] }
        update := { count := 0, tables := [] }
        delete := { count := 0, tables := [] }
        merge := { count := 1, tables := ["dbo.T"] }
        truncate := { count := 0, tables := [] }
        select_into := { count := 0, tables := [] }
        notes := [] } ∧
    (analyze_data_changes none
      "MERGE INTO dbo.T USING dbo.S AS s ON t.Id = s.Id WHEN MATCHED THEN DELETE FROM dbo.X;").delete.count = 0 ∧
    (analyze_data_changes none "DELETE FROM dbo.X;").delete.count = 1 ∧
    (analyze_data_changes none
      "MERGE INTO dbo.T USING dbo.S AS s ON t.Id = s.Id WHEN MATCHED THEN UPDATE SET t.X = s.X;").update.count = 0 ∧
    (analyze_data_changes none
      "MERGE INTO dbo.T USING dbo.S AS s ON t.Id = s.Id WHEN MATCHED THEN UPDATE SET t.X = s.X;").merge.count = 1 := by
  have hBu : (astCollectList true cs).filter (fun p => p.1 = WriteOp.update) = [] :=
    astCollectList_true_no_update cs
  have hBd : (astCollectList true cs).filter (fun p => p.1 = WriteOp.delete) = [] := by
    rw [List.filter_eq_nil_iff]
    intro p hp
    simpa using hdf p hp
  have hfu : (astCollectAll (pre ++ SqlAst.merge t cs :: post)).filter
        (fun p => p.1 = WriteOp.update) =
      (astCollectAll (pre ++ SqlAst.merge t [] :: post)).filter
        (fun p => p.1 = WriteOp.update) := by
    simp [astCollectAll, astCollectList_append, astCollectList, astCollect,
      List.filter_append, List.filter_cons, hBu]
  have hfd : (astCollectAll (pre ++ SqlAst.merge t cs :: post)).filter
        (fun p => p.1 = WriteOp.delete) =
      (astCollectAll (pre ++ SqlAst.merge t [] :: post)).filter
        (fun p => p.1 = WriteOp.delete) := by
    simp [astCollectAll, astCollectList_append, astCollectList, astCollect,
      List.filter_append, List.filter_cons, hBd]
  have haccU : astOpAcc (astCollectAll (pre ++ SqlAst.merge t cs :: post)) WriteOp.update =
      astOpAcc (astCollectAll (pre ++ SqlAst.merge t [] :: post)) WriteOp.update := by
    simp only [astOpAcc]
    rw [hfu]
  have haccD : astOpAcc (astCollectAll (pre ++ SqlAst.merge t cs :: post)) WriteOp.delete =
      astOpAcc (astCollectAll (pre ++ SqlAst.merge t [] :: post)) WriteOp.delete := by
    simp only [astOpAcc]
    rw [hfd]
  have hmem : (WriteOp.merge, t) ∈ astCollectAll (pre ++ SqlAst.merge t cs :: post) := by
    simp [astCollectAll, astCollectList_append, astCollectList, astCollect]
  have hpos : 0 < (astOpAcc (astCollectAll (pre ++ SqlAst.merge t cs :: post)) WriteOp.merge).1 := by
    simp only [astOpAcc, List.length_map]
    exact List.length_pos.mpr (List.ne_nil_of_mem (List.mem_filter.mpr ⟨hmem, by simp⟩))
  have h1 := length_filter_add
    (fun q : Nat × String => is_merge_context (strip_sql_comments sql2).data q.1)
    (allPositions (mWordsTable ["update"]) (strip_sql_comments sql2).data)
  have h2 := length_filter_add
    (fun q : Nat × String => is_merge_context (strip_sql_comments sql2).data q.1)
    (allPositions (mWordsTable ["delete", "from"]) (strip_sql_comments sql2).data)
  have h3 := length_filter_add
    (fun q : Nat × String => is_merge_context (strip_sql_comments sql2).data q.1)
    (allPositions mDeleteAlias (strip_sql_comments sql2).data)
  refine ⟨?_, ?_, ?_, ?_, ?_, ?_, by decide, by decide, by decide, by decide, by decide⟩
  · simp only [analyze_data_changes, Option.isNone_some, Option.getD_some]
    rw [haccU]
  · simp only [analyze_data_changes, Option.isNone_some, Option.getD_some]
    rw [haccD]
  · simp only [analyze_data_changes, Option.isNone_some, Option.getD_some, combineOp]
    rw [if_neg (by simp; omega)]
  · simp only [analyze_data_changes, Option.isNone_some, Option.getD_some, combineOp]
    rw [if_neg (by simp; omega)]
    simpa using hpos
  · simp only [fallback_data_changes, mkFallbackOp, List.length_map]
    omega
  · simp only [fallback_data_changes, mkFallbackOp, List.length_append, List.length_map]
    omega

/-- C4 (witness for `c4_merge_attribution`): the realizable parse of the
MERGE-with-DELETE-action statement — one `merge` node whose subtree is a
plain non-write node — satisfies the no-`Delete`-under-`Merge` hypothesis,
and at it the update and delete payloads coincide with those of the same
forest with an empty merge subtree. -/
theorem c4_merge_attribution_witness :
    (∀ p ∈ astCollectList true [SqlAst.node []], p.1 ≠ WriteOp.delete) ∧
    (analyze_data_changes
      (some [SqlAst.merge (some "dbo.T") [SqlAst.node []]])
      "MERGE INTO dbo.T USING dbo.S AS s ON t.Id = s.Id WHEN MATCHED THEN DELETE;").update =
      (analyze_data_changes
        (some [SqlAst.merge (some "dbo.T") []])
        "MERGE INTO dbo.T USING dbo.S AS s ON t.Id = s.Id WHEN MATCHED THEN DELETE;").update ∧
    (analyze_data_changes
      (some [SqlAst.merge (some "dbo.T") [SqlAst.node []]])
      "MERGE INTO dbo.T USING dbo.S AS s ON t.Id = s.Id WHEN MATCHED THEN DELETE;").delete =
      (analyze_data_changes
        (some [SqlAst.merge (some "dbo.T") []])
        "MERGE INTO dbo.T USING dbo.S AS s ON t.Id = s.Id WHEN MATCHED THEN DELETE;").delete :=
  ⟨by decide,
   (c4_merge_attribution [] [] [SqlAst.node []] (some "dbo.T")
      "MERGE INTO dbo.T USING dbo.S AS s ON t.Id = s.Id WHEN MATCHED THEN DELETE;"
      "MERGE INTO dbo.T USING dbo.S AS s ON t.Id = s.Id WHEN MATCHED THEN DELETE;"
      (by decide)).1,
   (c4_merge_attribution [] [] [SqlAst.node []] (some "dbo.T")
      "MERGE INTO dbo.T USING dbo.S AS s ON t.Id = s.Id WHEN MATCHED THEN DELETE;"
      "MERGE INTO dbo.T USING dbo.S AS s ON t.Id = s.Id WHEN MATCHED THEN DELETE;"
      (by decide)).2.1⟩

end Spec2Proof
